import Mathlib

/-
Verification development for the `cache_to_disk` persistent memoization
library (single source file `cache_to_disk/__init__.py`).

The development is a shallow embedding: the library's pure logic is
translated into executable Lean definitions, and the library's filesystem
effects (artifact files, the JSON registry file) are made explicit by
threading a `DiskState` value through the translated operations.  Machine
arithmetic, advisory locking, logging and fsync/flush details are out of
scope of the claims and are abstracted as noted in the doc comments.
-/

set_option autoImplicit false

namespace CacheToDisk

/-! ## Python value universe

The modeled universe of values produced by wrapped functions:
`none` is Python `None`; `prim r` is any ordinary picklable object
identified by its canonical string rendering `r`; `ndarray d mmapFile`
is a numpy array holding the element values `d` — when `mmapFile = some p`
the array is an `np.memmap` view backed by file `p` (dtype and exact shape
are abstracted away; the element values are what the claims compare). -/

inductive PyVal where
  | none
  | prim (r : String)
  | ndarray (d : List Int) (mmapFile : Option String)
  deriving DecidableEq, Repr

/-- Python `isinstance(v, np.ndarray)`: true for arrays and memmap views
(`np.memmap` subclasses `np.ndarray`). -/
def PyVal.isNdarrayInstance : PyVal → Bool
  | .ndarray _ _ => true
  | _ => false

/-- Python `isinstance(v, np.memmap)`: true only for file-backed views. -/
def PyVal.isMemmap : PyVal → Bool
  | .ndarray _ (some _) => true
  | _ => false

/-- The `filename` attribute of a memmap view (meaningful only when
`isMemmap` holds; the source reads `data.filename`). -/
def PyVal.mmapSrc : PyVal → String
  | .ndarray _ (some p) => p
  | _ => ""

/-- Element values carried by an array value (used by `np.save`, which
materializes a view's current contents). -/
def PyVal.arrData : PyVal → List Int
  | .ndarray d _ => d
  | _ => []

/-- Contents of one on-disk file, classified by how the library's decoders
react to it.  `pickled v`: `pickle.load` on the open file succeeds and
yields `v`.  `pickledChunked v`: a direct `pickle.load` raises, but the
raw chunked re-read followed by `pickle.loads` succeeds and yields `v`
(the oversized-payload case the fallback exists for).  `npyData d`:
`np.load` succeeds and yields an array with values `d`.  `rawArr d`:
a headerless binary array file (as written through a user `np.memmap`);
`np.load` fails on it but a raw memory map presents the values `d`.
`metaJson`: a well-formed sidecar descriptor (its dtype/shape payload is
abstracted to its parseability).  `raw n`: opaque bytes on which every
decoder fails. -/
inductive FileData where
  | pickled (v : PyVal)
  | pickledChunked (v : PyVal)
  | npyData (d : List Int)
  | rawArr (d : List Int)
  | metaJson
  | raw (n : Nat)
  deriving DecidableEq, Repr

/-- Values a read-only memory map of a file presents (`np.memmap` reads
whatever bytes are there; byte-level reinterpretation of non-array data is
abstracted to an empty view). -/
def fileViewData : FileData → List Int
  | .npyData d => d
  | .rawArr d => d
  | _ => []

/-- One file on disk: its contents plus its age in days as computed by
`get_age_of_file` (today minus mtime, in whole days; an `Int` since a
future mtime yields a negative `timedelta.days`). -/
structure DiskFile where
  data : FileData
  ageDays : Int
  deriving DecidableEq, Repr

/-- The artifact directory: an association list from path to file. -/
abbrev FS := List (String × DiskFile)

def fsLookup : FS → String → Option DiskFile
  | [], _ => Option.none
  | (k, v) :: t, p => if k = p then some v else fsLookup t p

/-- Remove every file at path `p` (models `os.remove`). -/
def fsErase : FS → String → FS
  | [], _ => []
  | (k, v) :: t, p => if k = p then fsErase t p else (k, v) :: fsErase t p

/-- Write a file at path `p`, replacing any existing file there. -/
def fsInsert (fs : FS) (p : String) (d : DiskFile) : FS :=
  (p, d) :: fsErase fs p

@[simp] theorem fsLookup_nil (p : String) : fsLookup [] p = Option.none := rfl

@[simp] theorem fsLookup_cons (k : String) (v : DiskFile) (t : FS) (p : String) :
    fsLookup ((k, v) :: t) p = if k = p then some v else fsLookup t p := rfl

theorem fsLookup_fsErase (fs : FS) (p q : String) :
    fsLookup (fsErase fs p) q = if q = p then Option.none else fsLookup fs q := by
  induction fs with
  | nil => simp [fsErase]
  | cons hd t ih =>
    obtain ⟨k, v⟩ := hd
    simp only [fsErase, fsLookup_cons]
    by_cases hk : k = p
    · simp only [if_pos hk, ih]
      by_cases hq : q = p
      · simp [hq]
      · have hkq : k ≠ q := by rw [hk]; exact fun h => hq h.symm
        simp [hq, hkq]
    · simp only [if_neg hk, fsLookup_cons, ih]
      by_cases hq : q = p
      · subst hq
        simp [hk]
      · simp [hq]

theorem fsLookup_fsInsert (fs : FS) (p q : String) (d : DiskFile) :
    fsLookup (fsInsert fs p d) q = if p = q then some d else fsLookup fs q := by
  by_cases hq : p = q
  · subst hq; simp [fsInsert]
  · have hq' : q ≠ p := fun h => hq h.symm
    simp [fsInsert, hq, fsLookup_fsErase, hq']

/-! ## Registry document

The registry JSON document maps each function name to its list of cache
entry rows, plus the reserved global counter key
`total_number_of_cache_to_disks`.  The reserved key never holds an entry
list, so it is modeled as the separate field `totalCount`; every iteration
in the source skips it with an explicit `continue`. -/

/-- One registry row: canonical positional/keyword argument renderings,
the artifact file name relative to the cache directory, and the TTL in
days (`0` meaning never expires). -/
structure CacheEntry where
  args : String
  kwargs : String
  file_name : String
  max_age_days : Int
  deriving DecidableEq, Repr

structure CacheMetadata where
  entries : List (String × List CacheEntry)
  totalCount : Int
  deriving DecidableEq, Repr

def mdLookup : List (String × List CacheEntry) → String → Option (List CacheEntry)
  | [], _ => Option.none
  | (k, v) :: t, fn => if k = fn then some v else mdLookup t fn

/-- Replace the rows stored under `fn` (first occurrence), appending a new
key if absent — Python dict assignment. -/
def mdSetRows : List (String × List CacheEntry) → String → List CacheEntry →
    List (String × List CacheEntry)
  | [], fn, rows => [(fn, rows)]
  | (k, v) :: t, fn, rows =>
    if k = fn then (k, rows) :: t else (k, v) :: mdSetRows t fn rows

@[simp] theorem mdLookup_nil (fn : String) : mdLookup [] fn = Option.none := rfl

@[simp] theorem mdLookup_cons (k : String) (v : List CacheEntry)
    (t : List (String × List CacheEntry)) (fn : String) :
    mdLookup ((k, v) :: t) fn = if k = fn then some v else mdLookup t fn := rfl

theorem mdLookup_mdSetRows (l : List (String × List CacheEntry))
    (fn fn' : String) (rows : List CacheEntry) :
    mdLookup (mdSetRows l fn rows) fn' =
      if fn = fn' then some rows else mdLookup l fn' := by
  induction l with
  | nil => by_cases h : fn = fn' <;> simp [mdSetRows, h]
  | cons hd t ih =>
    obtain ⟨k, v⟩ := hd
    by_cases hk : k = fn
    · subst hk
      by_cases h' : k = fn' <;> simp [mdSetRows, h', ih]
    · by_cases h' : k = fn'
      · subst h'
        have : fn ≠ k := fun h => hk h.symm
        simp [mdSetRows, hk, this]
      · simp [mdSetRows, hk, h', ih]

/-! ## Configuration constants

`DISK_CACHE_DIR` is resolved from the environment at import time in the
source; it is fixed to a representative constant here.  The lock-related
constants keep their source defaults. -/

def DISK_CACHE_DIR : String := "disk_cache"

/-- Reserved registry key holding the global store counter. -/
def TOTAL_NUMCACHE_KEY : String := "total_number_of_cache_to_disks"

def UNLIMITED_CACHE_AGE : Int := 0

def DEFAULT_CACHE_AGE : Int := 15

/-- `os.path.join` for the one-level joins the library performs. -/
def join_path (d f : String) : String := d ++ "/" ++ f

/-! ## SHA-1 (hashlib.sha1 ... hexdigest)

A bit-faithful executable SHA-1 over byte lists, with 32-bit words
represented as `Nat` reduced modulo `2 ^ 32` at every step. -/

/-- Rotate a 32-bit word (a `Nat` below `2 ^ 32`) left by `s` bits. -/
def rotl (x s : Nat) : Nat := (x * 2 ^ s + x / 2 ^ (32 - s)) % 2 ^ 32

/-- Bitwise complement of a 32-bit word. -/
def w32not (x : Nat) : Nat := 2 ^ 32 - 1 - x

/-- UTF-8 encoding of one character (what `str.encode()` produces). -/
def utf8Encode (c : Char) : List Nat :=
  let n := c.toNat
  if n < 0x80 then [n]
  else if n < 0x800 then [0xC0 + n / 0x40, 0x80 + n % 0x40]
  else if n < 0x10000 then
    [0xE0 + n / 0x1000, 0x80 + n / 0x40 % 0x40, 0x80 + n % 0x40]
  else
    [0xF0 + n / 0x40000, 0x80 + n / 0x1000 % 0x40, 0x80 + n / 0x40 % 0x40,
      0x80 + n % 0x40]

def strBytes (s : String) : List Nat :=
  s.data.foldr (fun c acc => utf8Encode c ++ acc) []

/-- Big-endian byte rendering of `n` in exactly `k` bytes. -/
def beBytes : Nat → Nat → List Nat
  | 0, _ => []
  | k + 1, n => beBytes k (n / 256) ++ [n % 256]

/-- SHA-1 message padding: append `0x80`, zero-pad to 56 mod 64, append the
64-bit big-endian bit length. -/
def sha1Pad (msg : List Nat) : List Nat :=
  let L := msg.length
  let zeros := (64 - (L + 9) % 64) % 64
  msg ++ [0x80] ++ List.replicate zeros 0 ++ beBytes 8 (8 * L)

/-- Split a byte list into 64-byte chunks (structurally recursive on a
fuel bound so that the kernel can evaluate it). -/
def chunksAux : Nat → List Nat → List (List Nat)
  | 0, _ => []
  | _, [] => []
  | fuel + 1, l => l.take 64 :: chunksAux fuel (l.drop 64)

def chunks64 (l : List Nat) : List (List Nat) := chunksAux l.length l

/-- Assemble big-endian 32-bit words from groups of four bytes. -/
def toWords : List Nat → List Nat
  | a :: b :: c :: d :: rest => (((a * 256 + b) * 256 + c) * 256 + d) :: toWords rest
  | _ => []

/-- Extend the 16 chunk words to the 80-word message schedule. -/
def sha1Extend (ws : List Nat) : List Nat :=
  (List.range 64).foldl
    (fun acc _ =>
      acc ++ [rotl (Nat.xor (Nat.xor (acc.getD (acc.length - 3) 0)
        (acc.getD (acc.length - 8) 0))
        (Nat.xor (acc.getD (acc.length - 14) 0) (acc.getD (acc.length - 16) 0))) 1])
    ws

def sha1F (i b c d : Nat) : Nat :=
  if i < 20 then Nat.lor (Nat.land b c) (Nat.land (w32not b) d)
  else if i < 40 then Nat.xor b (Nat.xor c d)
  else if i < 60 then Nat.lor (Nat.lor (Nat.land b c) (Nat.land b d)) (Nat.land c d)
  else Nat.xor b (Nat.xor c d)

def sha1K (i : Nat) : Nat :=
  if i < 20 then 0x5A827999
  else if i < 40 then 0x6ED9EBA1
  else if i < 60 then 0x8F1BBCDC
  else 0xCA62C1D6

structure SHA1State where
  h0 : Nat
  h1 : Nat
  h2 : Nat
  h3 : Nat
  h4 : Nat
  deriving DecidableEq, Repr

def sha1Init : SHA1State := ⟨0x67452301, 0xEFCDAB89, 0x98BADCFE, 0x10325476, 0xC3D2E1F0⟩

def sha1Compress (st : SHA1State) (chunk : List Nat) : SHA1State :=
  let ws := sha1Extend (toWords chunk)
  let step := fun (t : Nat × Nat × Nat × Nat × Nat) (i : Nat) =>
    let (a, b, c, d, e) := t
    let temp := (rotl a 5 + sha1F i b c d + e + sha1K i + ws.getD i 0) % 2 ^ 32
    (temp, a, rotl b 30, c, d)
  let fin := (List.range 80).foldl step (st.h0, st.h1, st.h2, st.h3, st.h4)
  ⟨(st.h0 + fin.1) % 2 ^ 32, (st.h1 + fin.2.1) % 2 ^ 32, (st.h2 + fin.2.2.1) % 2 ^ 32,
    (st.h3 + fin.2.2.2.1) % 2 ^ 32, (st.h4 + fin.2.2.2.2) % 2 ^ 32⟩

def hexChar (n : Nat) : Char :=
  if n < 10 then Char.ofNat (48 + n) else Char.ofNat (87 + n)

/-- Lowercase hexadecimal rendering of one 32-bit word (8 digits). -/
def wordHex (w : Nat) : String :=
  String.mk ((List.range 8).map fun i => hexChar (w / 2 ^ (4 * (7 - i)) % 16))

def sha1Hex (msg : List Nat) : String :=
  let fin := (chunks64 (sha1Pad msg)).foldl sha1Compress sha1Init
  wordHex fin.h0 ++ wordHex fin.h1 ++ wordHex fin.h2 ++ wordHex fin.h3 ++ wordHex fin.h4

/-- `hashlib.sha1(s.encode()).hexdigest()`. -/
def sha1HexOfString (s : String) : String := sha1Hex (strBytes s)

-- Sanity check of the SHA-1 embedding against the standard test vector.
set_option maxRecDepth 100000 in
theorem sha1_test_vector :
    sha1HexOfString "abc" = "a9993e364706816aba3e25717850c26c9cd0d89d" := by decide

/-! ## Python string renderings

The library keys cache entries by `str(args)` and `str(kwargs)` of the
call.  `str` of a tuple/dict applies `repr` to the elements; `repr` of a
string is modeled here for strings of printable characters (quote
selection, backslash/quote and common control-character escapes). -/

/-- Single quote, double quote, backslash as characters. -/
def squote : Char := Char.ofNat 39
def dquote : Char := Char.ofNat 34
def bslash : Char := Char.ofNat 92

/-- Python `repr` of a string: single-quoted unless the string contains a
single quote but no double quote; the chosen quote, backslashes and
newline/carriage-return/tab are escaped.  (The `\xHH` escapes Python uses
for other control characters are outside the modeled character range.) -/
def pyReprStr (s : String) : String :=
  let hasS := s.data.contains squote
  let hasD := s.data.contains dquote
  let q := if hasS && !hasD then dquote else squote
  let esc := fun (c : Char) =>
    if c = bslash then String.mk [bslash, bslash]
    else if c = q then String.mk [bslash, c]
    else if c = Char.ofNat 10 then String.mk [bslash, 'n']
    else if c = Char.ofNat 13 then String.mk [bslash, 'r']
    else if c = Char.ofNat 9 then String.mk [bslash, 't']
    else String.mk [c]
  String.mk [q] ++ String.join (s.data.map esc) ++ String.mk [q]

/-- Python `str` of a tuple whose elements are rendered by the given
representation strings (trailing comma for the 1-tuple). -/
def pyStrTuple : List String → String
  | [] => "()"
  | [r] => "(" ++ r ++ ",)"
  | rs => "(" ++ String.intercalate ", " rs ++ ")"

/-- Python `str` of a kwargs dict: keys are strings (shown with `repr`),
values are rendered by the given representation strings, in insertion
order. -/
def pyStrDict (pairs : List (String × String)) : String :=
  "\x7b" ++
    String.intercalate ", "
      (pairs.map fun p => pyReprStr p.1 ++ ": " ++ p.2) ++ "\x7d"

/-! ## Key Deriver (`get_hash_filename`)

The source builds `function_name + '_' + str(args) + '_' + str(kwargs)`
where — at every call site — `args` is the 2-tuple
`(str(call_args), str(call_kwargs))` and `kwargs` is empty, hashes that
string with SHA-1 and returns `function_name + '_' + hexdigest`. -/

/-- The exact digest preimage: `fn + '_' + str((argsRepr, kwargsRepr)) + '_' + str(dict())`. -/
def keyPreimage (function_name argsRepr kwargsRepr : String) : String :=
  function_name ++ "_" ++
    ("(" ++ pyReprStr argsRepr ++ ", " ++ pyReprStr kwargsRepr ++ ")") ++
    "_" ++ "\x7b\x7d"

def get_hash_filename (function_name argsRepr kwargsRepr : String) : String :=
  function_name ++ "_" ++ sha1HexOfString (keyPreimage function_name argsRepr kwargsRepr)

/-! ## Disk state and errors -/

/-- The shared mutable disk resources: the artifact directory and the
contents of the JSON registry file.  Locking (`open_exclusive` /
`open_shared`) only coordinates concurrent access and is transparent to
the single-process functional behavior modeled here. -/
structure DiskState where
  fs : FS
  registryFile : CacheMetadata
  deriving DecidableEq, Repr

/-- Exceptions the modeled operations can raise to their caller.
`assertionFailed` is the `assert len(args) == 0` precondition;
`unpickleFailed` is an exception escaping `unpickle_big_data`;
`reservedName` is the explicit `Exception` for caching a function named
like the reserved counter key; `moveFailed` is `shutil.move` on a missing
source; `userException` is an error propagated from the wrapped
computation. -/
inductive CacheErr where
  | assertionFailed
  | unpickleFailed
  | reservedName
  | moveFailed
  | userException (msg : String)
  deriving DecidableEq, Repr

/-- `write_cache_file`: dump the registry document to the registry file
(under an exclusive lock in the source). -/
def write_cache_file (cache_metadata_dict : CacheMetadata) (st : DiskState) : DiskState :=
  { st with registryFile := cache_metadata_dict }

/-- `load_cache_metadata_json`: read the registry file (under a shared
lock).  The registry file always exists here: module initialization
(`ensure_dir`) creates it, so the `FileNotFoundError` branch that would
create an empty document is not reachable in the modeled states. -/
def load_cache_metadata_json (st : DiskState) : CacheMetadata :=
  st.registryFile

/-- Python `str.endswith`. -/
def strEndsWith (s suf : String) : Bool :=
  let n := s.data.length
  let m := suf.data.length
  decide (m ≤ n) && s.data.drop (n - m) == suf.data

/-! ## Artifact Backend -/

/-- `load_np_memmap`: read the sidecar descriptor `<path>.json`, then
re-open `path` as a read-only memory map.  Any failure (missing or
unparsable sidecar, missing file) is caught and yields `None`. -/
def load_np_memmap (file_path : String) (fs : FS) : Option PyVal :=
  match fsLookup fs (file_path ++ ".json") with
  | some ⟨.metaJson, _⟩ =>
    match fsLookup fs file_path with
    | some df => some (.ndarray (fileViewData df.data) (some file_path))
    | Option.none => Option.none
  | _ => Option.none

/-- `load_numpy`: `np.load(file_path, mmap_mode)` with failures caught and
converted to `None`.  With `mmap_mode='c'` the result is a memory-mapped
(copy-on-write) view of the file. -/
def load_numpy (file_path : String) (fs : FS) : Option PyVal :=
  match fsLookup fs file_path with
  | some ⟨.npyData d, _⟩ => some (.ndarray d (some file_path))
  | _ => Option.none

/-- `rename_np_memmap`: write the sidecar descriptor `<file_path>.json`,
move the memmap's backing file into place when the paths differ
(`shutil.move` raises if the source is missing), then re-open `file_path`
as a read-only memory map, returning `None` when the file is absent. -/
def rename_np_memmap (from_filepath file_path : String) (fs : FS) :
    Except CacheErr (Option PyVal × FS) :=
  let fs1 := fsInsert fs (file_path ++ ".json") ⟨.metaJson, 0⟩
  if from_filepath ≠ file_path then
    match fsLookup fs1 from_filepath with
    | Option.none => .error .moveFailed
    | some df =>
      let fs2 := fsInsert (fsErase fs1 from_filepath) file_path df
      .ok (some (.ndarray (fileViewData df.data) (some file_path)), fs2)
  else
    match fsLookup fs1 file_path with
    | some df => .ok (some (.ndarray (fileViewData df.data) (some file_path)), fs1)
    | Option.none => .ok (Option.none, fs1)

/-- `pickle_big_data`: persist one value.  A memmap view under the
rename-in-place mode is not written here (the wrapper moves its backing
file afterwards); any other array is written with `np.save`
(`save_numpy`); everything else is pickled and written in bounded-size
chunks.  Flush/fsync durability details are abstracted; a fresh file has
age 0. -/
def pickle_big_data (data : PyVal) (file_path : String)
    (rename_np_memmap_file : Bool) (fs : FS) : FS :=
  if data.isMemmap && rename_np_memmap_file then fs
  else if data.isNdarrayInstance then
    fsInsert fs file_path ⟨.npyData data.arrData, 0⟩
  else
    fsInsert fs file_path ⟨.pickled data, 0⟩

/-- `unpickle_big_data`: load one artifact.  For `.npy` paths the sidecar
selects the memory-map re-open path, else a plain `np.load`; both catch
their own failures and yield `None`.  For generic artifacts a direct
`pickle.load` is tried; on failure the raw bytes are re-read in chunks and
decoded with `pickle.loads` — which itself raises when the bytes do not
decode (and reading a missing generic artifact raises from
`os.path.getsize`). -/
def unpickle_big_data (file_path : String) (fs : FS) : Except CacheErr PyVal :=
  if strEndsWith file_path ".npy" then
    if (fsLookup fs (file_path ++ ".json")).isSome then
      .ok ((load_np_memmap file_path fs).getD .none)
    else
      .ok ((load_numpy file_path fs).getD .none)
  else
    match fsLookup fs file_path with
    | some ⟨.pickled v, _⟩ => .ok v
    | some ⟨.pickledChunked v, _⟩ => .ok v
    | _ => .error .unpickleFailed

/-! ## Metadata Registry lookup (`cache_exists`) -/

/-- The staleness test `get_age_of_file(f) > max_age_days != UNLIMITED_CACHE_AGE`
(a Python comparison chain: age exceeds the TTL and the TTL is not the
unlimited sentinel). -/
def is_stale (age max_age_days : Int) : Bool :=
  decide (max_age_days < age) && decide (max_age_days ≠ UNLIMITED_CACHE_AGE)

/-- Scan a function's rows for the first entry whose canonical argument
strings match, recovering its TTL; defaults to the unlimited sentinel when
no row matches. -/
def lookupMaxAge (rows : List CacheEntry) (argsS kwargsS : String) : Int :=
  match rows.find? (fun r => r.args == argsS && r.kwargs == kwargsS) with
  | some r => r.max_age_days
  | Option.none => UNLIMITED_CACHE_AGE

/-- Resolve the artifact file for a derived key: the `.npy` candidate is
preferred, then the `.pkl` candidate. -/
def resolveArtifact (fs : FS) (base : String) : Option String :=
  let file_path_npy := join_path DISK_CACHE_DIR (base ++ ".npy")
  let file_path_pkl := join_path DISK_CACHE_DIR (base ++ ".pkl")
  if (fsLookup fs file_path_npy).isSome then some file_path_npy
  else if (fsLookup fs file_path_pkl).isSome then some file_path_pkl
  else Option.none

/-- The `assert len(args) == 0` precondition guard: exclusions configured
while positional arguments were passed. -/
def positional_with_exclusions (except_arg_names args : List String) : Bool :=
  !except_arg_names.isEmpty && !args.isEmpty

/-- `for arg_name in except_arg_names: kwargs.pop(arg_name, ...)`: the
keyword arguments with every excluded name removed. -/
def exKw (except_arg_names : List String) (kwargs : List (String × String)) :
    List (String × String) :=
  kwargs.filter (fun p => !(except_arg_names.contains p.1))

/-- `cache_exists`: decide hit/miss for one call.  Arguments are
represented by their canonical `repr` strings (`args` positionally,
`kwargs` as name/value pairs in insertion order).  Excluded keyword names
are popped before the key is derived; the artifact is located by the
derived key; the matching row (if any) supplies the TTL; a stale artifact
is removed and reported as a miss; otherwise the artifact is loaded, a
`None` load result being a miss.  The updated artifact directory is
returned on every path; the registry file is never written. -/
def cache_exists (cache_metadata : CacheMetadata) (function_name : String)
    (except_arg_names : List String) (args : List String)
    (kwargs : List (String × String)) (st : DiskState) :
    Except CacheErr (Bool × PyVal) × DiskState :=
  if positional_with_exclusions except_arg_names args then
    (.error .assertionFailed, st)
  else
    let kw := exKw except_arg_names kwargs
    match mdLookup cache_metadata.entries function_name with
    | Option.none => (.ok (false, .none), st)
    | some rows =>
      let argsS := pyStrTuple args
      let kwargsS := pyStrDict kw
      let base := get_hash_filename function_name argsS kwargsS
      match resolveArtifact st.fs base with
      | Option.none => (.ok (false, .none), st)
      | some file_name =>
        let max_age_days := lookupMaxAge rows argsS kwargsS
        let age := ((fsLookup st.fs file_name).map DiskFile.ageDays).getD 0
        if is_stale age max_age_days then
          (.ok (false, .none), { st with fs := fsErase st.fs file_name })
        else
          match unpickle_big_data file_name st.fs with
          | .error e => (.error e, st)
          | .ok v =>
            if v ≠ .none then (.ok (true, v), st) else (.ok (false, .none), st)

/-! ## Store path (`cache_function_value`) -/

/-- `cache_function_value`: persist a computed value and record its
registry row.  The artifact name is the derived key plus a
backend-selecting suffix; the row is appended to the function's list and
the global counter incremented, then the registry document is written. -/
def cache_function_value (function_value : PyVal) (n_days_to_cache : Int)
    (cache_metadata : CacheMetadata) (rename_np_memmap_file : Bool)
    (function_name : String) (args : List String)
    (kwargs : List (String × String)) (st : DiskState) :
    Except CacheErr (String × DiskState) :=
  if function_name = TOTAL_NUMCACHE_KEY then .error .reservedName
  else
    let suffix := if function_value.isNdarrayInstance then ".npy" else ".pkl"
    let argsS := pyStrTuple args
    let kwargsS := pyStrDict kwargs
    let new_file_name := get_hash_filename function_name argsS kwargsS ++ suffix
    let new_cache : CacheEntry := ⟨argsS, kwargsS, new_file_name, n_days_to_cache⟩
    let new_filepath := join_path DISK_CACHE_DIR new_file_name
    let fs1 := pickle_big_data function_value new_filepath rename_np_memmap_file st.fs
    let rows := (mdLookup cache_metadata.entries function_name).getD []
    let md1 : CacheMetadata :=
      { entries := mdSetRows cache_metadata.entries function_name (rows ++ [new_cache]),
        totalCount := cache_metadata.totalCount + 1 }
    .ok (new_filepath, write_cache_file md1 { st with fs := fs1 })

/-! ## Memoization Facade (one call of the decorated `wrapper`) -/

/-- Per-wrapper in-process state: the shared disk resources plus the
hit/miss/nocache counters owned by this wrapper instance. -/
structure WrapperState where
  disk : DiskState
  hits : Nat
  misses : Nat
  nocache : Nat
  deriving DecidableEq, Repr

/-- Outcome of running the wrapped computation once: a returned value, a
`NoCacheCondition` carrying its substitute `function_value`, or any other
exception. -/
inductive ComputeOutcome where
  | value (v : PyVal)
  | nocacheSignal (function_value : PyVal)
  | raises (msg : String)
  deriving DecidableEq, Repr

/-- One call of the decorated `wrapper`.  Returns the value handed to the
caller, the updated state, and whether the wrapped computation ran.
Mirrors the source: load the registry, try `cache_exists`; on hit bump
`hits` and return the cached value; on miss bump `misses` and run the
computation; a `NoCacheCondition` bumps `nocache` and returns its
substitute value with no persistence; on ordinary success the excluded
keyword names are stripped, the value persisted via
`cache_function_value`, and — for a memmap view under the rename mode —
the in-hand value replaced by the re-opened view at its final location. -/
def wrapper (function_name : String) (n_days_to_cache : Int)
    (except_arg_names : List String) (rename_np_memmap_file : Bool)
    (compute : ComputeOutcome) (args : List String)
    (kwargs : List (String × String)) (st : WrapperState) :
    Except CacheErr (PyVal × WrapperState × Bool) :=
  let cache_metadata := load_cache_metadata_json st.disk
  match cache_exists cache_metadata function_name except_arg_names args kwargs st.disk with
  | (.error e, _) => .error e
  | (.ok (already_cached, function_value), d1) =>
    if already_cached then
      .ok (function_value, { st with disk := d1, hits := st.hits + 1 }, false)
    else
      let st1 : WrapperState := { st with disk := d1, misses := st.misses + 1 }
      match compute with
      | .raises msg => .error (.userException msg)
      | .nocacheSignal v => .ok (v, { st1 with nocache := st1.nocache + 1 }, true)
      | .value v =>
        if positional_with_exclusions except_arg_names args then .error .assertionFailed
        else
          let kw := exKw except_arg_names kwargs
          let md1 := load_cache_metadata_json st1.disk
          match cache_function_value v n_days_to_cache md1 rename_np_memmap_file
              function_name args kw st1.disk with
          | .error e => .error e
          | .ok (new_filepath, d2) =>
            if v.isMemmap && rename_np_memmap_file then
              match rename_np_memmap v.mmapSrc new_filepath d2.fs with
              | .error e => .error e
              | .ok (r, fs2) =>
                .ok (r.getD .none, { st1 with disk := { d2 with fs := fs2 } }, true)
            else
              .ok (v, { st1 with disk := d2 }, true)

/-! ## Eviction Policy (`delete_old_disk_caches`) -/

/-- Inner loop of the sweep over one function's rows: drop rows whose
artifact is missing, keep rows whose artifact is within age, remove the
artifact of stale rows and drop them.  Returns the kept rows, the updated
artifact directory, and whether anything changed. -/
def sweepRows : List CacheEntry → FS → List CacheEntry × FS × Bool
  | [], fs => ([], fs, false)
  | c :: rest, fs =>
    let file_name := join_path DISK_CACHE_DIR c.file_name
    match fsLookup fs file_name with
    | Option.none =>
      let r := sweepRows rest fs
      (r.1, r.2.1, true)
    | some df =>
      if is_stale df.ageDays c.max_age_days then
        let r := sweepRows rest (fsErase fs file_name)
        (r.1, r.2.1, true)
      else
        let r := sweepRows rest fs
        (c :: r.1, r.2.1, r.2.2)

/-- Outer loop of the sweep: iterate over the loaded document's function
lists (the reserved counter key is the separate `totalCount` field and is
skipped), updating the deep-copied document only when a function keeps at
least one row (`if to_keep:` in the source). -/
def sweepFns : List (String × List CacheEntry) → List (String × List CacheEntry) → FS →
    List (String × List CacheEntry) × FS × Bool
  | [], acc, fs => (acc, fs, false)
  | (fn, rows) :: rest, acc, fs =>
    let r := sweepRows rows fs
    let acc1 := if r.1.isEmpty then acc else mdSetRows acc fn r.1
    let r2 := sweepFns rest acc1 r.2.1
    (r2.1, r2.2.1, r.2.2 || r2.2.2)

/-- `delete_old_disk_caches`: run the sweep over the loaded registry and
persist the updated document once at the end, only if anything changed. -/
def delete_old_disk_caches (st : DiskState) : DiskState :=
  let cache_metadata := load_cache_metadata_json st
  let r := sweepFns cache_metadata.entries cache_metadata.entries st.fs
  if r.2.2 then
    { fs := r.2.1,
      registryFile := { entries := r.1, totalCount := cache_metadata.totalCount } }
  else
    { st with fs := r.2.1 }

/-! ## Lock Coordinator retry loop (`open_locked`)

The acquisition loop of `open_locked` (used by `open_exclusive` and
`open_shared`): `elapsed = 0; while elapsed < DISK_CACHE_LOCK_MAX_WAIT:`
try a non-blocking `flock`; on `BlockingIOError` sleep
`DISK_CACHE_LOCK_INTERVAL` seconds and loop; the `else` clause of the
`while` raises `LockTimeout`.  Note the loop body never updates `elapsed`:
the sleep occurs but the slept time is not accumulated, which the theorems
below examine.  Wait bounds are modeled as rationals; `contended i` tells
whether the i-th `flock` attempt raises `BlockingIOError`. -/

inductive LockState where
  | acquired
  | timedOut
  | waiting (elapsed : ℚ)
  deriving DecidableEq, Repr

/-- State of the acquisition loop after `n` iterations: check the `while`
condition (timing out via the `else` clause when it fails), then attempt
the `flock`; on contention sleep and continue with `elapsed` unchanged,
exactly as the source does. -/
def open_locked_poll (max_wait interval : ℚ) (contended : Nat → Bool) : Nat → LockState
  | 0 => .waiting 0
  | n + 1 =>
    match open_locked_poll max_wait interval contended n with
    | .waiting e =>
      if e < max_wait then
        if contended n then .waiting e else .acquired
      else .timedOut
    | s => s

/-! ## Decorator TTL validation (`cache_to_disk`) -/

/-- The possible `n_days_to_cache` arguments of the decorator factory:
an integer, `None`, or any other value. -/
inductive TTLArg where
  | intArg (n : Int)
  | noneArg
  | otherArg
  deriving DecidableEq, Repr

/-- The validation/normalization at the top of `cache_to_disk`: a negative
integer is silently replaced by 0 (the unlimited sentinel), a
non-integer non-None value raises `TypeError`, and `None` passes through
unchanged. -/
def cache_to_disk_ttl (n_days_to_cache : TTLArg) : Except String (Option Int) :=
  match n_days_to_cache with
  | .intArg n => .ok (some (if n < 0 then 0 else n))
  | .noneArg => .ok Option.none
  | .otherArg => .error "Expected n_days_to_cache to be an integer or None"

/-- Value equality of cached results as the library observes it: the data
an artifact stores and reproduces on load (array identity of the backing
file is not part of the comparison, matching numpy value equality between
an array and its re-opened memory-mapped view). -/
def sameStoredValue : PyVal → PyVal → Bool
  | .none, .none => true
  | .prim a, .prim b => a == b
  | .ndarray d _, .ndarray e _ => d == e
  | _, _ => false

/-! ## Helper lemmas -/

instance instDecEqExcept {ε α : Type} [DecidableEq ε] [DecidableEq α] :
    DecidableEq (Except ε α)
  | .error e, .error f =>
    if h : e = f then .isTrue (h ▸ rfl) else .isFalse (fun hc => h (Except.error.inj hc))
  | .error _, .ok _ => .isFalse (fun hc => Except.noConfusion hc)
  | .ok _, .error _ => .isFalse (fun hc => Except.noConfusion hc)
  | .ok x, .ok y =>
    if h : x = y then .isTrue (h ▸ rfl) else .isFalse (fun hc => h (Except.ok.inj hc))

/-- On every path, `cache_exists` either leaves the disk untouched or only
removes one (stale) artifact file. -/
theorem cache_exists_state_cases (md : CacheMetadata) (fn : String)
    (ex args : List String) (kwargs : List (String × String)) (st : DiskState) :
    (cache_exists md fn ex args kwargs st).2 = st ∨
    ∃ p, (cache_exists md fn ex args kwargs st).2 = { st with fs := fsErase st.fs p } := by
  unfold cache_exists
  dsimp only
  split
  · left; rfl
  · split
    · left; rfl
    · split
      · left; rfl
      · split
        · right; exact ⟨_, rfl⟩
        · split
          · left; rfl
          · split
            · left; rfl
            · left; rfl

theorem cache_exists_registry_aux (md : CacheMetadata) (fn : String)
    (ex args : List String) (kwargs : List (String × String)) (st : DiskState) :
    (cache_exists md fn ex args kwargs st).2.registryFile = st.registryFile := by
  rcases cache_exists_state_cases md fn ex args kwargs st with h | ⟨p, h⟩ <;> rw [h]

/-- `cache_exists` never creates a file: every file present afterwards was
present before. -/
theorem cache_exists_fs_no_new (md : CacheMetadata) (fn : String)
    (ex args : List String) (kwargs : List (String × String)) (st : DiskState)
    (p : String) :
    fsLookup (cache_exists md fn ex args kwargs st).2.fs p ≠ Option.none →
    fsLookup st.fs p ≠ Option.none := by
  rcases cache_exists_state_cases md fn ex args kwargs st with h | ⟨q, h⟩ <;> rw [h]
  · exact id
  · intro hne
    rw [show ({ st with fs := fsErase st.fs q } : DiskState).fs = fsErase st.fs q from rfl,
      fsLookup_fsErase] at hne
    by_cases hpq : p = q
    · simp [hpq] at hne
    · simpa [hpq] using hne

theorem wordHex_length (w : Nat) : (wordHex w).length = 8 := by
  simp [wordHex, String.length]

theorem sha1HexOfString_length (s : String) : (sha1HexOfString s).length = 40 := by
  simp [sha1HexOfString, sha1Hex, String.length_append, wordHex_length]

theorem string_append_right_ne (s t u : String) (h : ¬ t.data = u.data) :
    ¬ s ++ t = s ++ u := by
  intro he
  apply h
  have hd := congrArg String.data he
  rw [String.data_append, String.data_append] at hd
  exact List.append_cancel_left hd

theorem append_suffix_ne_self (s t : String) (ht : t.length ≠ 0) : ¬ s ++ t = s := by
  intro h
  have hl := congrArg String.length h
  rw [String.length_append] at hl
  omega

theorem join_path_suffix (d b t : String) : join_path d (b ++ t) = d ++ "/" ++ b ++ t := by
  simp [join_path, String.append_assoc]

theorem npy_pkl_path_ne (b : String) :
    ¬ join_path DISK_CACHE_DIR (b ++ ".npy") = join_path DISK_CACHE_DIR (b ++ ".pkl") := by
  rw [join_path_suffix, join_path_suffix]
  exact string_append_right_ne _ ".npy" ".pkl" (by decide)

theorem strEndsWith_append (s t : String) : strEndsWith (s ++ t) t = true := by
  unfold strEndsWith
  dsimp only
  rw [String.data_append, List.length_append]
  have hlen : s.data.length + t.data.length - t.data.length = s.data.length := by omega
  rw [hlen, List.drop_left, decide_eq_true (Nat.le_add_left _ _)]
  simp

theorem strEndsWith_pkl_not_npy (s : String) : strEndsWith (s ++ ".pkl") ".npy" = false := by
  unfold strEndsWith
  dsimp only
  rw [String.data_append, List.length_append]
  rw [show (['.', 'p', 'k', 'l'] : List Char).length = 4 from rfl]
  rw [show (['.', 'n', 'p', 'y'] : List Char).length = 4 from rfl]
  have hlen : s.data.length + 4 - 4 = s.data.length := by omega
  rw [hlen, List.drop_left]
  rw [show ((['.', 'p', 'k', 'l'] : List Char) == ['.', 'n', 'p', 'y']) = false from rfl]
  simp

theorem resolveArtifact_none_elim (fs : FS) (base : String)
    (h : resolveArtifact fs base = Option.none) :
    fsLookup fs (join_path DISK_CACHE_DIR (base ++ ".npy")) = Option.none ∧
    fsLookup fs (join_path DISK_CACHE_DIR (base ++ ".pkl")) = Option.none := by
  unfold resolveArtifact at h
  by_cases hn : (fsLookup fs (join_path DISK_CACHE_DIR (base ++ ".npy"))).isSome
  · simp [hn] at h
  · by_cases hp : (fsLookup fs (join_path DISK_CACHE_DIR (base ++ ".pkl"))).isSome
    · simp [hn, hp] at h
    · exact ⟨Option.not_isSome_iff_eq_none.mp hn, Option.not_isSome_iff_eq_none.mp hp⟩

/-- A lookup with neither candidate artifact on disk is a clean miss that
leaves the state untouched. -/
theorem cache_exists_no_artifact (md : CacheMetadata) (fn : String)
    (ex args : List String) (kwargs : List (String × String)) (st : DiskState)
    (hpe : positional_with_exclusions ex args = false)
    (hres : resolveArtifact st.fs
      (get_hash_filename fn (pyStrTuple args) (pyStrDict (exKw ex kwargs))) = Option.none) :
    cache_exists md fn ex args kwargs st = (.ok (false, .none), st) := by
  unfold cache_exists
  dsimp only
  rcases hmd : mdLookup md.entries fn with _ | rows <;> simp [hpe, hmd, hres]

/-- A lookup that resolves an artifact within its TTL and loads a
non-`None` value is a hit that leaves the state untouched. -/
theorem cache_exists_hit (md : CacheMetadata) (fn : String)
    (ex args : List String) (kwargs : List (String × String)) (st : DiskState)
    (rows : List CacheEntry) (p : String) (v : PyVal)
    (hpe : positional_with_exclusions ex args = false)
    (hmd : mdLookup md.entries fn = some rows)
    (hres : resolveArtifact st.fs
      (get_hash_filename fn (pyStrTuple args) (pyStrDict (exKw ex kwargs))) = some p)
    (hstale : is_stale (((fsLookup st.fs p).map DiskFile.ageDays).getD 0)
      (lookupMaxAge rows (pyStrTuple args) (pyStrDict (exKw ex kwargs))) = false)
    (hload : unpickle_big_data p st.fs = .ok v) (hv : ¬ v = .none) :
    cache_exists md fn ex args kwargs st = (.ok (true, v), st) := by
  unfold cache_exists
  dsimp only
  simp [hpe, hmd, hres, hstale, hload, hv]

/-- A wrapper call whose lookup hits returns the cached value, increments
only the hit counter, and does not run the computation. -/
theorem wrapper_hit (fn : String) (nd : Int) (ex : List String) (rn : Bool)
    (compute : ComputeOutcome) (args : List String)
    (kwargs : List (String × String)) (st : WrapperState) (v : PyVal)
    (hce : cache_exists st.disk.registryFile fn ex args kwargs st.disk =
      (.ok (true, v), st.disk)) :
    wrapper fn nd ex rn compute args kwargs st =
      .ok (v, ⟨st.disk, st.hits + 1, st.misses, st.nocache⟩, false) := by
  unfold wrapper
  dsimp only
  rw [show load_cache_metadata_json st.disk = st.disk.registryFile from rfl, hce]
  rfl

theorem lookupMaxAge_nonneg (rows : List CacheEntry) (a k : String)
    (h : ∀ c ∈ rows, 0 ≤ c.max_age_days) : 0 ≤ lookupMaxAge rows a k := by
  unfold lookupMaxAge
  rcases hf : rows.find? (fun r => r.args == a && r.kwargs == k) with _ | c
  · rw [hf]
    exact le_refl 0
  · rw [hf]
    exact h c (List.mem_of_find?_eq_some hf)

theorem is_stale_age_zero (m : Int) (h : 0 ≤ m) : is_stale 0 m = false := by
  unfold is_stale
  rw [decide_eq_false (by omega : ¬ m < 0)]
  rfl

/-! ## Claim theorems -/

/-- C1: the claim states that when the flock on the sibling `.lock` file
stays contended on every retry, `open_locked` terminates after the bounded
maximum wait by raising `LockTimeout`.  The code never does: the loop
variable `elapsed` is initialized to 0 and never incremented, so under
persistent contention the loop state after any number of iterations is
still `waiting 0` — the acquisition neither succeeds nor ever reaches the
`LockTimeout` branch, retrying forever.  This contradicts the source's own
intent (the comment "retry lock attempts every 0.1 seconds for up to 5
seconds" and the `LockTimeout` docstring "Failed to acquire a lock after
retrying to exhaustion"), so the claim is recorded as a code bug, with
this theorem exhibiting the divergent behavior. -/
theorem open_locked_never_times_out (max_wait interval : ℚ) (contended : Nat → Bool)
    (hpos : 0 < max_wait) (hcont : ∀ i, contended i = true) (n : Nat) :
    open_locked_poll max_wait interval contended n = .waiting 0 := by
  induction n with
  | zero => rfl
  | succ n ih => simp [open_locked_poll, ih, hcont n, hpos]

/-- Witness for C1's theorem at the default configuration (max wait 10
seconds, interval 0.1 seconds), with every attempt contended, after 25
iterations. -/
theorem open_locked_never_times_out_witness :
    (0 : ℚ) < 10 ∧ open_locked_poll 10 (1 / 10) (fun _ => true) 25 = .waiting 0 :=
  ⟨by norm_num,
    open_locked_never_times_out 10 (1 / 10) (fun _ => true) (by norm_num)
      (fun _ => rfl) 25⟩

/-- C2 counterexample: loading a generic artifact whose bytes do not
decode raises to the caller — the first `pickle.load` fails, and the
chunked re-read hands the same corrupt bytes to `pickle.loads`, which
raises, unguarded, out of `unpickle_big_data`.  This falsifies the claim
that a corrupt or unreadable artifact never raises. -/
theorem unpickle_big_data_corrupt_pkl_raises :
    unpickle_big_data "disk_cache/x.pkl" [("disk_cache/x.pkl", ⟨.raw 4, 0⟩)] =
      .error .unpickleFailed := by decide

/-- C2 (amended): an array (`.npy`) artifact load never raises, and a
failed array load returns absent (`None`); a failed generic pickle load is
retried via the raw chunked re-read-and-decode path, which recovers the
value when the raw bytes decode — but itself raises to the caller when
they do not, so only array loads are guaranteed to surface as a cache
miss. -/
theorem unpickle_big_data_failure_policy (file_path : String) (fs : FS) :
    (strEndsWith file_path ".npy" = true →
      ∃ v, unpickle_big_data file_path fs = .ok v) ∧
    (strEndsWith file_path ".npy" = true →
      fsLookup fs (file_path ++ ".json") = Option.none →
      fsLookup fs file_path = Option.none →
      unpickle_big_data file_path fs = .ok .none) ∧
    (strEndsWith file_path ".npy" = false →
      ∀ v age, fsLookup fs file_path = some ⟨.pickledChunked v, age⟩ →
        unpickle_big_data file_path fs = .ok v) ∧
    (strEndsWith file_path ".npy" = false →
      ∀ n age, fsLookup fs file_path = some ⟨.raw n, age⟩ →
        unpickle_big_data file_path fs = .error .unpickleFailed) := by
  refine ⟨?_, ?_, ?_, ?_⟩
  · intro h
    unfold unpickle_big_data
    simp only [h, if_true]
    by_cases hs : (fsLookup fs (file_path ++ ".json")).isSome <;> simp [hs]
  · intro h hside hfile
    unfold unpickle_big_data
    simp [h, hside, load_numpy, hfile]
  · intro h v age hl
    unfold unpickle_big_data
    simp [h, hl]
  · intro h n age hl
    unfold unpickle_big_data
    simp [h, hl]

/-- Witness for C2's amended theorem: an absent `.npy` artifact loads as
absent without raising, and a chunked-only generic artifact is recovered
by the fallback path. -/
theorem unpickle_big_data_failure_policy_witness :
    (∃ v, unpickle_big_data "disk_cache/a.npy" [] = .ok v) ∧
    unpickle_big_data "disk_cache/a.npy" [] = .ok .none ∧
    unpickle_big_data "disk_cache/c.pkl"
      [("disk_cache/c.pkl", ⟨.pickledChunked (.prim "9"), 1⟩)] = .ok (.prim "9") :=
  ⟨(unpickle_big_data_failure_policy "disk_cache/a.npy" []).1 (by decide),
    (unpickle_big_data_failure_policy "disk_cache/a.npy" []).2.1 (by decide) rfl rfl,
    (unpickle_big_data_failure_policy "disk_cache/c.pkl"
      [("disk_cache/c.pkl", ⟨.pickledChunked (.prim "9"), 1⟩)]).2.2.1
      (by decide) (.prim "9") 1 rfl⟩

/-- C7: with a non-empty excluded-argument-name list, an invocation that
passes positional arguments fails the `assert len(args) == 0`
precondition: the guard tests true, `cache_exists` raises the assertion
error on lookup, and a full wrapper call (whatever the computation would
do) fails with the same assertion error instead of proceeding — the
identical guard is repeated on the post-compute store path. -/
theorem exclusions_forbid_positional_args (md : CacheMetadata) (fn : String)
    (ex args : List String) (kwargs : List (String × String)) (st : DiskState)
    (stw : WrapperState) (nd : Int) (rn : Bool) (compute : ComputeOutcome)
    (hex : ex ≠ []) (hargs : args ≠ []) :
    positional_with_exclusions ex args = true ∧
    (cache_exists md fn ex args kwargs st).1 = .error .assertionFailed ∧
    wrapper fn nd ex rn compute args kwargs stw = .error .assertionFailed := by
  have hp : positional_with_exclusions ex args = true := by
    cases ex with
    | nil => exact absurd rfl hex
    | cons a t =>
      cases args with
      | nil => exact absurd rfl hargs
      | cons b u => rfl
  have hce : ∀ (md' : CacheMetadata) (st' : DiskState),
      cache_exists md' fn ex args kwargs st' = (.error .assertionFailed, st') := by
    intro md' st'
    unfold cache_exists
    simp [hp]
  refine ⟨hp, ?_, ?_⟩
  · rw [hce md st]
  · unfold wrapper
    dsimp only
    rw [hce (load_cache_metadata_json stw.disk) stw.disk]

/-- Witness for C7's theorem at a concrete misuse: one excluded keyword
name configured, one positional argument passed. -/
theorem exclusions_forbid_positional_args_witness :
    positional_with_exclusions ["conn"] ["1"] = true ∧
    (cache_exists ⟨[], 0⟩ "f" ["conn"] ["1"] [] ⟨[], ⟨[], 0⟩⟩).1 =
      .error .assertionFailed ∧
    wrapper "f" 5 ["conn"] false (.value (.prim "7")) ["1"] []
      ⟨⟨[], ⟨[], 0⟩⟩, 0, 0, 0⟩ = .error .assertionFailed :=
  exclusions_forbid_positional_args ⟨[], 0⟩ "f" ["conn"] ["1"] [] ⟨[], ⟨[], 0⟩⟩
    ⟨⟨[], ⟨[], 0⟩⟩, 0, 0, 0⟩ 5 false (.value (.prim "7"))
    (by decide) (by decide)

/-- C8: the key deriver is deterministic — equal inputs give the identical
key, independently of any process state, since the key is a pure function
of the three canonical strings — and the key has the form
`functionName ++ "_" ++ hexDigest`, where `hexDigest` is the 40-character
SHA-1 hex digest of the preimage string that concatenates the function
name and the two canonical argument strings (`keyPreimage`, the exact
`function_name + '_' + str((argsRepr, kwargsRepr)) + '_' + str(dict())`
string the source hashes). -/
theorem get_hash_filename_deterministic (fn a k fn2 a2 k2 : String)
    (h1 : fn = fn2) (h2 : a = a2) (h3 : k = k2) :
    get_hash_filename fn a k = get_hash_filename fn2 a2 k2 ∧
    get_hash_filename fn a k = fn ++ "_" ++ sha1HexOfString (keyPreimage fn a k) ∧
    (sha1HexOfString (keyPreimage fn a k)).length = 40 := by
  subst h1; subst h2; subst h3
  exact ⟨rfl, rfl, sha1HexOfString_length _⟩

/-- Witness for C8's theorem at the canonical strings of a call `f(1)`. -/
theorem get_hash_filename_deterministic_witness :
    get_hash_filename "f" "(1,)" "\x7b\x7d" = get_hash_filename "f" "(1,)" "\x7b\x7d" ∧
    get_hash_filename "f" "(1,)" "\x7b\x7d" =
      "f" ++ "_" ++ sha1HexOfString (keyPreimage "f" "(1,)" "\x7b\x7d") ∧
    (sha1HexOfString (keyPreimage "f" "(1,)" "\x7b\x7d")).length = 40 :=
  get_hash_filename_deterministic "f" "(1,)" "\x7b\x7d" "f" "(1,)" "\x7b\x7d" rfl rfl rfl

/-- C9: `cache_exists` never writes the registry file — on every path,
including the stale-artifact-removal path, the load-failure path and the
error (exception) path, the registry document on disk is unchanged by the
lookup; only the artifact directory may change. -/
theorem cache_exists_never_writes_registry (md : CacheMetadata) (fn : String)
    (ex args : List String) (kwargs : List (String × String)) (st : DiskState) :
    (cache_exists md fn ex args kwargs st).2.registryFile = st.registryFile :=
  cache_exists_registry_aux md fn ex args kwargs st

/-- C10: a negative integer `n_days_to_cache` is silently coerced to 0,
the unlimited sentinel, by `cache_to_disk`; the staleness predicate used
by lookup and the eviction sweep never fires for TTL 0, so such entries
never expire; integer TTLs never raise, `None` passes through, and only a
non-integer, non-None value raises the `TypeError`. -/
theorem cache_to_disk_negative_ttl (n : Int) (hneg : n < 0) :
    cache_to_disk_ttl (.intArg n) = .ok (some 0) ∧
    (∀ age : Int, is_stale age 0 = false) ∧
    (∀ m : Int, ∃ r, cache_to_disk_ttl (.intArg m) = .ok r) ∧
    cache_to_disk_ttl .noneArg = .ok Option.none ∧
    cache_to_disk_ttl .otherArg =
      .error "Expected n_days_to_cache to be an integer or None" := by
  refine ⟨?_, ?_, ?_, rfl, rfl⟩
  · simp [cache_to_disk_ttl, hneg]
  · intro age
    simp [is_stale, UNLIMITED_CACHE_AGE]
  · intro m
    exact ⟨_, rfl⟩

/-- Witness for C10's theorem at TTL −3 and a 500-day-old artifact. -/
theorem cache_to_disk_negative_ttl_witness :
    cache_to_disk_ttl (.intArg (-3)) = .ok (some 0) ∧ is_stale 500 0 = false :=
  ⟨(cache_to_disk_negative_ttl (-3) (by norm_num)).1,
    (cache_to_disk_negative_ttl (-3) (by norm_num)).2.1 500⟩

/-- C5: through `cache_exists`, an entry whose matching registry row has
`maxAgeDays = 2` and whose artifact is 3 days old is reported as a miss
and its artifact file is removed as a side effect; and an entry whose
effective TTL is the unlimited sentinel 0 is never treated as stale and
its artifact is never removed, whatever its age. -/
theorem cache_exists_ttl_expiry (md : CacheMetadata) (fn : String)
    (ex args : List String) (kwargs : List (String × String)) (st : DiskState)
    (rows : List CacheEntry) (p : String) (df : DiskFile)
    (hpe : positional_with_exclusions ex args = false)
    (hrows : mdLookup md.entries fn = some rows)
    (hres : resolveArtifact st.fs
      (get_hash_filename fn (pyStrTuple args) (pyStrDict (exKw ex kwargs))) = some p)
    (hfile : fsLookup st.fs p = some df) :
    (df.ageDays = 3 →
      lookupMaxAge rows (pyStrTuple args) (pyStrDict (exKw ex kwargs)) = 2 →
      cache_exists md fn ex args kwargs st =
        (.ok (false, .none), { st with fs := fsErase st.fs p })) ∧
    (lookupMaxAge rows (pyStrTuple args) (pyStrDict (exKw ex kwargs)) = UNLIMITED_CACHE_AGE →
      is_stale df.ageDays
          (lookupMaxAge rows (pyStrTuple args) (pyStrDict (exKw ex kwargs))) = false ∧
      (cache_exists md fn ex args kwargs st).2.fs = st.fs) := by
  constructor
  · intro hage hmax
    unfold cache_exists
    dsimp only
    simp [hpe, hrows, hres, hfile, hage, hmax, is_stale, UNLIMITED_CACHE_AGE]
  · intro hmax
    constructor
    · rw [hmax]
      simp [is_stale, UNLIMITED_CACHE_AGE]
    · unfold cache_exists
      dsimp only
      simp only [hpe, Bool.false_eq_true, if_false, hrows, hres, hfile, hmax]
      rw [show ((Option.map DiskFile.ageDays (some df)).getD 0) = df.ageDays from rfl]
      rw [show is_stale df.ageDays UNLIMITED_CACHE_AGE = false by
        simp [is_stale, UNLIMITED_CACHE_AGE]]
      simp only [Bool.false_eq_true, if_false]
      rcases hu : unpickle_big_data p st.fs with e | v
      · simp [hu]
      · by_cases hv : v = .none <;> simp [hu, hv]

/-- Concrete scenario for the C5 witness: one row for `f(1)` with TTL 2
whose pickled artifact (at the derived key) is 3 days old. -/
def c5base : String := get_hash_filename "f" (pyStrTuple ["1"]) (pyStrDict [])
def c5path : String := join_path DISK_CACHE_DIR (c5base ++ ".pkl")
def c5md : CacheMetadata :=
  ⟨[("f", [⟨pyStrTuple ["1"], pyStrDict [], c5base ++ ".pkl", 2⟩])], 1⟩
def c5st : DiskState := ⟨[(c5path, ⟨.pickled (.prim "7"), 3⟩)], c5md⟩

set_option maxRecDepth 400000 in
/-- Witness for C5's theorem: the concrete stale lookup misses and removes
the artifact. -/
theorem cache_exists_ttl_expiry_witness :
    cache_exists c5md "f" [] ["1"] [] c5st =
      (.ok (false, .none), { c5st with fs := fsErase c5st.fs c5path }) :=
  (cache_exists_ttl_expiry c5md "f" [] ["1"] [] c5st
      [⟨pyStrTuple ["1"], pyStrDict [], c5base ++ ".pkl", 2⟩] c5path
      ⟨.pickled (.prim "7"), 3⟩
      (by decide) (by decide) (by decide) (by decide)).1 rfl (by decide)

/-- C6 (amended): a wrapped call whose computation raises the suppression
signal `NoCacheCondition` with substitute value `v` returns `v`, leaves
the hit counter unchanged, increments the miss counter (every
non-hit call does) and the nocache counter, and performs no persistence:
the registry document is unchanged and no artifact is created — the only
possible change to the artifact files is the removal of a stale artifact
by the lookup that preceded the computation. -/
theorem wrapper_nocache_semantics (fn : String) (nd : Int) (ex : List String)
    (rn : Bool) (args : List String) (kwargs : List (String × String))
    (st : WrapperState) (v : PyVal) (d1 : DiskState)
    (hlook : cache_exists st.disk.registryFile fn ex args kwargs st.disk =
      (.ok (false, .none), d1)) :
    wrapper fn nd ex rn (.nocacheSignal v) args kwargs st =
      .ok (v, ⟨d1, st.hits, st.misses + 1, st.nocache + 1⟩, true) ∧
    d1.registryFile = st.disk.registryFile ∧
    (∀ p, fsLookup d1.fs p ≠ Option.none → fsLookup st.disk.fs p ≠ Option.none) := by
  have h2 : (cache_exists st.disk.registryFile fn ex args kwargs st.disk).2 = d1 :=
    congrArg Prod.snd hlook
  refine ⟨?_, ?_, ?_⟩
  · unfold wrapper
    dsimp only
    rw [show load_cache_metadata_json st.disk = st.disk.registryFile from rfl, hlook]
    rfl
  · rw [← h2]
    exact cache_exists_registry_aux st.disk.registryFile fn ex args kwargs st.disk
  · intro p
    rw [← h2]
    exact cache_exists_fs_no_new st.disk.registryFile fn ex args kwargs st.disk p

/-- Witness for C6's amended theorem on a fresh cache: the substitute
value is returned, `misses` and `nocache` are incremented, nothing is
persisted. -/
theorem wrapper_nocache_semantics_witness :
    wrapper "f" 5 [] false (.nocacheSignal (.prim "sub")) ["1"] []
        ⟨⟨[], ⟨[], 0⟩⟩, 0, 0, 0⟩ =
      .ok (.prim "sub", ⟨⟨[], ⟨[], 0⟩⟩, 0, 1, 1⟩, true) :=
  (wrapper_nocache_semantics "f" 5 [] false ["1"] [] ⟨⟨[], ⟨[], 0⟩⟩, 0, 0, 0⟩
    (.prim "sub") ⟨[], ⟨[], 0⟩⟩ (by decide)).1

/-- Observable summary of one wrapper call: the returned value, whether
the computation ran, and the three counters. -/
def runView (e : Except CacheErr (PyVal × WrapperState × Bool)) :
    Option (PyVal × Bool × Nat × Nat × Nat) :=
  match e with
  | .ok (r, stw, ran) => some (r, ran, stw.hits, stw.misses, stw.nocache)
  | .error _ => Option.none

/-- The wrapper state a call leaves behind, when it returns normally. -/
def afterState (e : Except CacheErr (PyVal × WrapperState × Bool)) :
    Option WrapperState :=
  match e with
  | .ok (_, stw, _) => some stw
  | .error _ => Option.none

/-- Concrete scenario for the C6 counterexample: one row for `g6(1)` with
TTL 2 whose artifact is 3 days old (stale), and a computation raising the
suppression signal with substitute value `prim "8"`. -/
def c6base : String := get_hash_filename "g6" (pyStrTuple ["1"]) (pyStrDict [])
def c6path : String := join_path DISK_CACHE_DIR (c6base ++ ".pkl")
def c6st : WrapperState :=
  ⟨⟨[(c6path, ⟨.pickled (.prim "7"), 3⟩)],
    ⟨[("g6", [⟨pyStrTuple ["1"], pyStrDict [], c6base ++ ".pkl", 2⟩])], 1⟩⟩, 0, 0, 0⟩

set_option maxRecDepth 400000 in
/-- C6 counterexample: at this concrete call the suppression signal is
handled (substitute returned, nocache incremented), but the miss counter
is also incremented — falsifying "increments only the nocache counter" —
and the stale artifact was removed by the preceding lookup — falsifying
"the set of artifact files is exactly as before the call". -/
theorem wrapper_nocache_counterexample :
    runView (wrapper "g6" 5 [] false (.nocacheSignal (.prim "8")) ["1"] [] c6st) =
      some (.prim "8", true, 0, 1, 1) ∧
    fsLookup c6st.disk.fs c6path = some ⟨.pickled (.prim "7"), 3⟩ ∧
    (afterState (wrapper "g6" 5 [] false (.nocacheSignal (.prim "8")) ["1"] [] c6st)).map
      (fun stw => fsLookup stw.disk.fs c6path) = some Option.none := by decide

/-- Second-call hit assembly: a state whose registry lists the rows, whose
artifact resolves fresh (age 0) with a nonnegative effective TTL, and
whose load succeeds with a non-None value, makes the next call a hit. -/
theorem wrapper_hit_assembly (fn : String) (nd : Int) (ex args : List String)
    (kwargs : List (String × String)) (rn : Bool) (compute : ComputeOutcome)
    (st1 : WrapperState) (rows : List CacheEntry) (p : String) (v2 : PyVal)
    (hpe : positional_with_exclusions ex args = false)
    (hmd : mdLookup st1.disk.registryFile.entries fn = some rows)
    (hres : resolveArtifact st1.disk.fs
      (get_hash_filename fn (pyStrTuple args) (pyStrDict (exKw ex kwargs))) = some p)
    (hage : ((fsLookup st1.disk.fs p).map DiskFile.ageDays).getD 0 = 0)
    (hm : 0 ≤ lookupMaxAge rows (pyStrTuple args) (pyStrDict (exKw ex kwargs)))
    (hload : unpickle_big_data p st1.disk.fs = .ok v2)
    (hv2 : ¬ v2 = .none) :
    wrapper fn nd ex rn compute args kwargs st1 =
      .ok (v2, ⟨st1.disk, st1.hits + 1, st1.misses, st1.nocache⟩, false) := by
  apply wrapper_hit
  apply cache_exists_hit st1.disk.registryFile fn ex args kwargs st1.disk rows p v2 hpe hmd
    hres ?_ hload hv2
  rw [hage]
  exact is_stale_age_zero _ hm

/-- C3 (amended): if a wrapped function is called twice with identical
arguments on a cache with no pre-existing artifact or sidecar at the
call's derived key, the TTL is nonnegative and not elapsed (pre-existing
matching rows nonnegative, a memmap result's fresh backing file not at the
sidecar path), and the first call returns normally with a non-`None`
result, then the second call is a cache hit: it returns a value holding
the same stored data, does not run the computation, and increments the hit
counter.  The non-`None` proviso is forced by the counterexample: a stored
`None` is indistinguishable from a load failure and is recomputed on every
call. -/
theorem wrapper_second_call_hit
    (fn : String) (nd : Int) (ex args : List String)
    (kwargs : List (String × String)) (rn : Bool) (v : PyVal)
    (st st1 : WrapperState) (r1 : PyVal)
    (hnd : 0 ≤ nd)
    (hrowsOld : ∀ c ∈ (mdLookup st.disk.registryFile.entries fn).getD [],
      0 ≤ c.max_age_days)
    (hnofile : resolveArtifact st.disk.fs
      (get_hash_filename fn (pyStrTuple args) (pyStrDict (exKw ex kwargs))) = Option.none)
    (hnoside : fsLookup st.disk.fs
      (join_path DISK_CACHE_DIR
        (get_hash_filename fn (pyStrTuple args) (pyStrDict (exKw ex kwargs)) ++ ".npy")
        ++ ".json") = Option.none)
    (hsrc : ∀ src d, v = .ndarray d (some src) → rn = true →
      (¬ src = join_path DISK_CACHE_DIR
        (get_hash_filename fn (pyStrTuple args) (pyStrDict (exKw ex kwargs)) ++ ".npy")
        ++ ".json") ∧
      ∀ df, fsLookup st.disk.fs src = some df → df.ageDays = 0)
    (h1 : wrapper fn nd ex rn (.value v) args kwargs st = .ok (r1, st1, true))
    (hr1 : ¬ r1 = .none) :
    ∃ r2 st2, wrapper fn nd ex rn (.value v) args kwargs st1 =
        .ok (r2, st2, false) ∧
      sameStoredValue r1 r2 = true ∧ st2.hits = st1.hits + 1 := by
  have hpe : positional_with_exclusions ex args = false := by
    by_contra hc
    have hpe' : positional_with_exclusions ex args = true := by
      revert hc
      cases positional_with_exclusions ex args <;> simp
    have hce : cache_exists (load_cache_metadata_json st.disk) fn ex args kwargs st.disk =
        (.error .assertionFailed, st.disk) := by
      unfold cache_exists
      simp [hpe']
    unfold wrapper at h1
    dsimp only at h1
    rw [hce] at h1
    simp at h1
  have hlook1 : cache_exists st.disk.registryFile fn ex args kwargs st.disk =
      (.ok (false, .none), st.disk) :=
    cache_exists_no_artifact st.disk.registryFile fn ex args kwargs st.disk hpe hnofile
  unfold wrapper at h1
  dsimp only at h1
  simp only [load_cache_metadata_json] at h1
  rw [hlook1] at h1
  dsimp only at h1
  simp only [Bool.false_eq_true, if_false, hpe] at h1
  have hfn : ¬ fn = TOTAL_NUMCACHE_KEY := by
    intro hfn
    have hcf : cache_function_value v nd st.disk.registryFile rn fn args (exKw ex kwargs)
        st.disk = .error .reservedName := by
      unfold cache_function_value
      simp [hfn]
    rw [hcf] at h1
    simp at h1
  cases v with
  | none =>
    unfold cache_function_value at h1
    simp only [hfn, if_false, PyVal.isNdarrayInstance, PyVal.isMemmap, pickle_big_data,
      write_cache_file, Bool.false_and, Bool.false_eq_true, ite_false] at h1
    rw [Except.ok.injEq, Prod.mk.injEq, Prod.mk.injEq] at h1
    exact absurd h1.1.symm hr1
  | prim s =>
    unfold cache_function_value at h1
    simp only [hfn, if_false, PyVal.isNdarrayInstance, PyVal.isMemmap, pickle_big_data,
      write_cache_file, Bool.false_and, Bool.false_eq_true, ite_false] at h1
    rw [Except.ok.injEq, Prod.mk.injEq, Prod.mk.injEq] at h1
    obtain ⟨hA, hB, -⟩ := h1
    subst hA
    subst hB
    refine ⟨.prim s, _,
      wrapper_hit_assembly fn nd ex args kwargs rn (.value (.prim s)) _
        ((mdLookup st.disk.registryFile.entries fn).getD [] ++
          [⟨pyStrTuple args, pyStrDict (exKw ex kwargs),
            get_hash_filename fn (pyStrTuple args) (pyStrDict (exKw ex kwargs)) ++ ".pkl", nd⟩])
        (join_path DISK_CACHE_DIR
          (get_hash_filename fn (pyStrTuple args) (pyStrDict (exKw ex kwargs)) ++ ".pkl"))
        (.prim s) hpe ?_ ?_ ?_ ?_ ?_ ?_, ?_, rfl⟩
    · dsimp only
      rw [mdLookup_mdSetRows]
      simp
    · dsimp only
      have hpn := (resolveArtifact_none_elim _ _ hnofile).1
      have hne : ¬ join_path DISK_CACHE_DIR
          (get_hash_filename fn (pyStrTuple args) (pyStrDict (exKw ex kwargs)) ++ ".pkl") =
          join_path DISK_CACHE_DIR
          (get_hash_filename fn (pyStrTuple args) (pyStrDict (exKw ex kwargs)) ++ ".npy") :=
        fun h => npy_pkl_path_ne _ h.symm
      simp [resolveArtifact, fsLookup_fsInsert, hne, hpn]
    · dsimp only
      simp [fsLookup_fsInsert]
    · dsimp only
      apply lookupMaxAge_nonneg
      intro c hc
      rcases List.mem_append.mp hc with h | h
      · exact hrowsOld c h
      · rw [List.mem_singleton.mp h]
        exact hnd
    · dsimp only
      rw [join_path_suffix]
      unfold unpickle_big_data
      rw [strEndsWith_pkl_not_npy]
      simp [fsLookup_fsInsert]
    · simp
    · simp [sameStoredValue]
  | ndarray d mmf =>
    by_cases hmm : (PyVal.isMemmap (.ndarray d mmf) && rn) = true
    · -- memmap view under the rename mode
      rcases mmf with _ | src
      · simp [PyVal.isMemmap] at hmm
      have hrn : rn = true := by
        revert hmm
        cases rn <;> simp
      subst hrn
      obtain ⟨hss, hage0⟩ := hsrc src d rfl rfl
      unfold cache_function_value at h1
      simp only [hfn, if_false, PyVal.isNdarrayInstance, PyVal.isMemmap, PyVal.mmapSrc,
        pickle_big_data, write_cache_file, Bool.and_self, Bool.true_and, Bool.and_true,
        if_true, ite_true, Bool.false_eq_true, ite_false] at h1
      unfold rename_np_memmap at h1
      by_cases hsp : src = join_path DISK_CACHE_DIR
          (get_hash_filename fn (pyStrTuple args) (pyStrDict (exKw ex kwargs)) ++ ".npy")
      · -- degenerate: the view's backing file is already at the artifact path
        have hn1 : ¬ join_path DISK_CACHE_DIR
            (get_hash_filename fn (pyStrTuple args) (pyStrDict (exKw ex kwargs)) ++ ".npy")
            ++ ".json" = join_path DISK_CACHE_DIR
            (get_hash_filename fn (pyStrTuple args) (pyStrDict (exKw ex kwargs)) ++ ".npy") :=
          append_suffix_ne_self _ ".json" (by decide)
        have hpn := (resolveArtifact_none_elim _ _ hnofile).1
        simp only [hsp, ne_eq, not_true_eq_false, if_false, ite_false, fsLookup_fsInsert,
          hn1, hpn, Option.getD_none, reduceIte] at h1
        rw [Except.ok.injEq, Prod.mk.injEq, Prod.mk.injEq] at h1
        exact absurd h1.1.symm hr1
      · have hn3 : ¬ join_path DISK_CACHE_DIR
            (get_hash_filename fn (pyStrTuple args) (pyStrDict (exKw ex kwargs)) ++ ".npy")
            ++ ".json" = src := fun h => hss h.symm
        rcases hsf : fsLookup st.disk.fs src with _ | df
        · simp only [ne_eq, hsp, not_false_eq_true, if_true, ite_true, fsLookup_fsInsert,
            hn3, hsf, if_false, ite_false] at h1
          simp at h1
        · simp only [ne_eq, hsp, not_false_eq_true, if_true, ite_true, fsLookup_fsInsert,
            hn3, hsf, if_false, ite_false, Option.getD_some] at h1
          rw [Except.ok.injEq, Prod.mk.injEq, Prod.mk.injEq] at h1
          obtain ⟨hA, hB, -⟩ := h1
          subst hA
          subst hB
          refine ⟨_, _,
            wrapper_hit_assembly fn nd ex args kwargs true
              (.value (.ndarray d (some src))) _
              ((mdLookup st.disk.registryFile.entries fn).getD [] ++
          [⟨pyStrTuple args, pyStrDict (exKw ex kwargs),
            get_hash_filename fn (pyStrTuple args) (pyStrDict (exKw ex kwargs)) ++ ".npy", nd⟩])
              (join_path DISK_CACHE_DIR
                (get_hash_filename fn (pyStrTuple args) (pyStrDict (exKw ex kwargs)) ++ ".npy"))
              (.ndarray (fileViewData df.data)
                (some (join_path DISK_CACHE_DIR
                  (get_hash_filename fn (pyStrTuple args) (pyStrDict (exKw ex kwargs)) ++ ".npy"))))
              hpe ?_ ?_ ?_ ?_ ?_ ?_, ?_, rfl⟩
          · dsimp only
            rw [mdLookup_mdSetRows]
            simp
          · dsimp only
            simp [resolveArtifact, fsLookup_fsInsert]
          · dsimp only
            simp [fsLookup_fsInsert, hage0 df hsf]
          · dsimp only
            apply lookupMaxAge_nonneg
            intro c hc
            rcases List.mem_append.mp hc with h | h
            · exact hrowsOld c h
            · rw [List.mem_singleton.mp h]
              exact hnd
          · dsimp only
            have hn1 : ¬ join_path DISK_CACHE_DIR
                (get_hash_filename fn (pyStrTuple args) (pyStrDict (exKw ex kwargs)) ++ ".npy")
                = join_path DISK_CACHE_DIR
                (get_hash_filename fn (pyStrTuple args) (pyStrDict (exKw ex kwargs)) ++ ".npy")
                ++ ".json" := fun h => append_suffix_ne_self _ ".json" (by decide) h.symm
            have hn2 : ¬ join_path DISK_CACHE_DIR
                (get_hash_filename fn (pyStrTuple args) (pyStrDict (exKw ex kwargs)) ++ ".npy")
                ++ ".json" = join_path DISK_CACHE_DIR
                (get_hash_filename fn (pyStrTuple args) (pyStrDict (exKw ex kwargs)) ++ ".npy") :=
              append_suffix_ne_self _ ".json" (by decide)
            rw [join_path_suffix] at hn1 hn2 hn3 ⊢
            unfold unpickle_big_data
            rw [strEndsWith_append]
            unfold load_np_memmap
            simp [fsLookup_fsInsert, fsLookup_fsErase, hn1, hn2, hn3]
          · simp
          · simp [sameStoredValue]
    · -- array stored with np.save (plain array, or memmap view without rename)
      have hmm' : (PyVal.isMemmap (.ndarray d mmf) && rn) = false := by
        revert hmm
        cases h : (PyVal.isMemmap (.ndarray d mmf) && rn) <;> simp
      unfold cache_function_value at h1
      simp only [hfn, if_false, PyVal.isNdarrayInstance, pickle_big_data, PyVal.arrData,
        write_cache_file, hmm', Bool.false_eq_true, ite_false, if_true, ite_true] at h1
      rw [Except.ok.injEq, Prod.mk.injEq, Prod.mk.injEq] at h1
      obtain ⟨hA, hB, -⟩ := h1
      subst hA
      subst hB
      refine ⟨_, _,
        wrapper_hit_assembly fn nd ex args kwargs rn (.value (.ndarray d mmf)) _
          ((mdLookup st.disk.registryFile.entries fn).getD [] ++
          [⟨pyStrTuple args, pyStrDict (exKw ex kwargs),
            get_hash_filename fn (pyStrTuple args) (pyStrDict (exKw ex kwargs)) ++ ".npy", nd⟩])
          (join_path DISK_CACHE_DIR
            (get_hash_filename fn (pyStrTuple args) (pyStrDict (exKw ex kwargs)) ++ ".npy"))
          (.ndarray d
            (some (join_path DISK_CACHE_DIR
              (get_hash_filename fn (pyStrTuple args) (pyStrDict (exKw ex kwargs)) ++ ".npy"))))
          hpe ?_ ?_ ?_ ?_ ?_ ?_, ?_, rfl⟩
      · dsimp only
        rw [mdLookup_mdSetRows]
        simp
      · dsimp only
        simp [resolveArtifact, fsLookup_fsInsert]
      · dsimp only
        simp [fsLookup_fsInsert]
      · dsimp only
        apply lookupMaxAge_nonneg
        intro c hc
        rcases List.mem_append.mp hc with h | h
        · exact hrowsOld c h
        · rw [List.mem_singleton.mp h]
          exact hnd
      · dsimp only
        have hn2 : ¬ join_path DISK_CACHE_DIR
            (get_hash_filename fn (pyStrTuple args) (pyStrDict (exKw ex kwargs)) ++ ".npy")
            ++ ".json" = join_path DISK_CACHE_DIR
            (get_hash_filename fn (pyStrTuple args) (pyStrDict (exKw ex kwargs)) ++ ".npy") :=
          append_suffix_ne_self _ ".json" (by decide)
        have hn1 : ¬ join_path DISK_CACHE_DIR
            (get_hash_filename fn (pyStrTuple args) (pyStrDict (exKw ex kwargs)) ++ ".npy")
            = join_path DISK_CACHE_DIR
            (get_hash_filename fn (pyStrTuple args) (pyStrDict (exKw ex kwargs)) ++ ".npy")
            ++ ".json" := fun h => hn2 h.symm
        rw [join_path_suffix] at hnoside hn1 hn2 ⊢
        unfold unpickle_big_data
        rw [strEndsWith_append]
        simp [fsLookup_fsInsert, hn1, hn2, hnoside, load_numpy]
      · simp
      · simp [sameStoredValue]

set_option maxRecDepth 1000000 in
/-- C3 counterexample: a wrapped function returning `None` is never served
from cache — at this concrete input both calls run the computation
(`ran = true` both times, miss counter reaching 2), because the stored
`None` loads as `None` and `cache_exists` treats a `None` load as a miss.
This falsifies "the second call is a cache hit ... and the wrapped
computation runs exactly once". -/
theorem wrapper_none_value_recomputed :
    runView (wrapper "g3" 5 [] false (.value .none) ["1"] []
        ⟨⟨[], ⟨[], 0⟩⟩, 0, 0, 0⟩) = some (.none, true, 0, 1, 0) ∧
    ((afterState (wrapper "g3" 5 [] false (.value .none) ["1"] []
        ⟨⟨[], ⟨[], 0⟩⟩, 0, 0, 0⟩)).map
      (fun st1 => runView (wrapper "g3" 5 [] false (.value .none) ["1"] [] st1))) =
      some (some (.none, true, 0, 2, 0)) := by decide

/-- State left by a first call `f3(2)` computing `prim "9"` on a fresh
cache (what the C3 witness feeds to the second call). -/
def c3key : String := get_hash_filename "f3" (pyStrTuple ["2"]) (pyStrDict []) ++ ".pkl"
def c3st1 : WrapperState :=
  ⟨⟨[(join_path DISK_CACHE_DIR c3key, ⟨.pickled (.prim "9"), 0⟩)],
    ⟨[("f3", [⟨pyStrTuple ["2"], pyStrDict [], c3key, 5⟩])], 1⟩⟩, 0, 1, 0⟩

set_option maxRecDepth 400000 in
/-- Witness for C3's amended theorem: concrete first call on a fresh
cache, concrete second call hitting. -/
theorem wrapper_second_call_hit_witness :
    ∃ r2 st2, wrapper "f3" 5 [] false (.value (.prim "9")) ["2"] [] c3st1 =
        .ok (r2, st2, false) ∧
      sameStoredValue (.prim "9") r2 = true ∧ st2.hits = c3st1.hits + 1 :=
  wrapper_second_call_hit "f3" 5 [] ["2"] [] false (.prim "9")
    ⟨⟨[], ⟨[], 0⟩⟩, 0, 0, 0⟩ c3st1 (.prim "9") (by norm_num) (by decide) rfl rfl
    (fun src d h => PyVal.noConfusion h) (by decide) (by decide)

/-- The keep test the sweep applies to one registry row against a given
artifact directory: the artifact exists and is within its TTL. -/
def keepTestB (fs : FS) (c : CacheEntry) : Bool :=
  match fsLookup fs (join_path DISK_CACHE_DIR c.file_name) with
  | some df => !is_stale df.ageDays c.max_age_days
  | Option.none => false

theorem sweepRows_cons_missing (c : CacheEntry) (rest : List CacheEntry) (fs : FS)
    (hl : fsLookup fs (join_path DISK_CACHE_DIR c.file_name) = Option.none) :
    sweepRows (c :: rest) fs = ((sweepRows rest fs).1, (sweepRows rest fs).2.1, true) := by
  conv_lhs => unfold sweepRows
  dsimp only
  split
  · rfl
  · next df heq =>
    rw [hl] at heq
    exact Option.noConfusion heq

theorem sweepRows_cons_stale (c : CacheEntry) (rest : List CacheEntry) (fs : FS)
    (df : DiskFile)
    (hl : fsLookup fs (join_path DISK_CACHE_DIR c.file_name) = some df)
    (hs : is_stale df.ageDays c.max_age_days = true) :
    sweepRows (c :: rest) fs =
      ((sweepRows rest (fsErase fs (join_path DISK_CACHE_DIR c.file_name))).1,
        (sweepRows rest (fsErase fs (join_path DISK_CACHE_DIR c.file_name))).2.1, true) := by
  conv_lhs => unfold sweepRows
  dsimp only
  split
  · next heq =>
    rw [hl] at heq
    exact Option.noConfusion heq
  · next df2 heq =>
    rw [hl] at heq
    injection heq with h
    subst h
    rw [hs]
    rfl

theorem sweepRows_cons_keep (c : CacheEntry) (rest : List CacheEntry) (fs : FS)
    (df : DiskFile)
    (hl : fsLookup fs (join_path DISK_CACHE_DIR c.file_name) = some df)
    (hs : is_stale df.ageDays c.max_age_days = false) :
    sweepRows (c :: rest) fs =
      (c :: (sweepRows rest fs).1, (sweepRows rest fs).2.1, (sweepRows rest fs).2.2) := by
  conv_lhs => unfold sweepRows
  dsimp only
  split
  · next heq =>
    rw [hl] at heq
    exact Option.noConfusion heq
  · next df2 heq =>
    rw [hl] at heq
    injection heq with h
    subst h
    rw [hs]
    rfl

theorem sweepRows_fs_other (rows : List CacheEntry) (fs : FS) (p : String)
    (hp : ∀ c ∈ rows, ¬ p = join_path DISK_CACHE_DIR c.file_name) :
    fsLookup (sweepRows rows fs).2.1 p = fsLookup fs p := by
  induction rows generalizing fs with
  | nil => rfl
  | cons c rest ih =>
    have hph := hp c (List.mem_cons_self c rest)
    have hpt : ∀ c' ∈ rest, ¬ p = join_path DISK_CACHE_DIR c'.file_name :=
      fun c' hc' => hp c' (List.mem_cons_of_mem c hc')
    rcases hl : fsLookup fs (join_path DISK_CACHE_DIR c.file_name) with _ | df
    · rw [sweepRows_cons_missing c rest fs hl]
      exact ih fs hpt
    · cases hsb : is_stale df.ageDays c.max_age_days
      · rw [sweepRows_cons_keep c rest fs df hl hsb]
        exact ih fs hpt
      · rw [sweepRows_cons_stale c rest fs df hl hsb]
        rw [show ((((sweepRows rest (fsErase fs (join_path DISK_CACHE_DIR c.file_name))).1,
            (sweepRows rest (fsErase fs (join_path DISK_CACHE_DIR c.file_name))).2.1, true)) :
            List CacheEntry × FS × Bool).2.1 =
            (sweepRows rest (fsErase fs (join_path DISK_CACHE_DIR c.file_name))).2.1 from rfl]
        rw [ih (fsErase fs (join_path DISK_CACHE_DIR c.file_name)) hpt, fsLookup_fsErase]
        simp [hph]

theorem sweepRows_keep (rows : List CacheEntry) (fs : FS)
    (hnd : (rows.map fun c => join_path DISK_CACHE_DIR c.file_name).Nodup) :
    (sweepRows rows fs).1 = rows.filter (keepTestB fs) := by
  induction rows generalizing fs with
  | nil => rfl
  | cons c rest ih =>
    rw [List.map_cons, List.nodup_cons] at hnd
    obtain ⟨hni, hnt⟩ := hnd
    rcases hl : fsLookup fs (join_path DISK_CACHE_DIR c.file_name) with _ | df
    · rw [sweepRows_cons_missing c rest fs hl]
      rw [show (((sweepRows rest fs).1, (sweepRows rest fs).2.1, true) :
          List CacheEntry × FS × Bool).1 = (sweepRows rest fs).1 from rfl]
      rw [ih fs hnt, List.filter_cons]
      simp [keepTestB, hl]
    · cases hsb : is_stale df.ageDays c.max_age_days
      · rw [sweepRows_cons_keep c rest fs df hl hsb]
        rw [show ((c :: (sweepRows rest fs).1, (sweepRows rest fs).2.1,
            (sweepRows rest fs).2.2) : List CacheEntry × FS × Bool).1 =
            c :: (sweepRows rest fs).1 from rfl]
        rw [ih fs hnt, List.filter_cons]
        simp [keepTestB, hl, hsb]
      · rw [sweepRows_cons_stale c rest fs df hl hsb]
        rw [show ((((sweepRows rest (fsErase fs (join_path DISK_CACHE_DIR c.file_name))).1,
            (sweepRows rest (fsErase fs (join_path DISK_CACHE_DIR c.file_name))).2.1, true)) :
            List CacheEntry × FS × Bool).1 =
            (sweepRows rest (fsErase fs (join_path DISK_CACHE_DIR c.file_name))).1 from rfl]
        rw [ih (fsErase fs (join_path DISK_CACHE_DIR c.file_name)) hnt, List.filter_cons]
        have hkc : keepTestB fs c = false := by
          simp [keepTestB, hl, hsb]
        simp only [hkc, Bool.false_eq_true, if_false, ite_false]
        apply List.filter_congr
        intro c' hc'
        have hne : ¬ join_path DISK_CACHE_DIR c'.file_name =
            join_path DISK_CACHE_DIR c.file_name := by
          intro h
          exact hni (h ▸ List.mem_map_of_mem (fun x => join_path DISK_CACHE_DIR x.file_name) hc')
        simp [keepTestB, fsLookup_fsErase, hne]

theorem sweepRows_fs_at (rows : List CacheEntry) (fs : FS)
    (hnd : (rows.map fun c => join_path DISK_CACHE_DIR c.file_name).Nodup) :
    ∀ c ∈ rows, fsLookup (sweepRows rows fs).2.1 (join_path DISK_CACHE_DIR c.file_name) =
      if keepTestB fs c then fsLookup fs (join_path DISK_CACHE_DIR c.file_name)
      else Option.none := by
  induction rows generalizing fs with
  | nil => intro c hc; exact absurd hc (List.not_mem_nil c)
  | cons c rest ih =>
    rw [List.map_cons, List.nodup_cons] at hnd
    obtain ⟨hni, hnt⟩ := hnd
    intro c' hc'
    rcases List.mem_cons.mp hc' with rfl | hmem
    · have hother : ∀ q ∈ rest, ¬ join_path DISK_CACHE_DIR c'.file_name =
          join_path DISK_CACHE_DIR q.file_name := by
        intro q hq h
        exact hni (h ▸ List.mem_map_of_mem (fun x => join_path DISK_CACHE_DIR x.file_name) hq)
      rcases hl : fsLookup fs (join_path DISK_CACHE_DIR c'.file_name) with _ | df
      · rw [sweepRows_cons_missing c' rest fs hl]
        rw [show (((sweepRows rest fs).1, (sweepRows rest fs).2.1, true) :
            List CacheEntry × FS × Bool).2.1 = (sweepRows rest fs).2.1 from rfl]
        rw [sweepRows_fs_other rest fs _ hother]
        simp [keepTestB, hl]
      · cases hsb : is_stale df.ageDays c'.max_age_days
        · rw [sweepRows_cons_keep c' rest fs df hl hsb]
          rw [show ((c' :: (sweepRows rest fs).1, (sweepRows rest fs).2.1,
              (sweepRows rest fs).2.2) : List CacheEntry × FS × Bool).2.1 =
              (sweepRows rest fs).2.1 from rfl]
          rw [sweepRows_fs_other rest fs _ hother]
          simp [keepTestB, hl, hsb]
        · rw [sweepRows_cons_stale c' rest fs df hl hsb]
          rw [show ((((sweepRows rest (fsErase fs (join_path DISK_CACHE_DIR c'.file_name))).1,
              (sweepRows rest (fsErase fs (join_path DISK_CACHE_DIR c'.file_name))).2.1, true)) :
              List CacheEntry × FS × Bool).2.1 =
              (sweepRows rest (fsErase fs (join_path DISK_CACHE_DIR c'.file_name))).2.1 from rfl]
          rw [sweepRows_fs_other rest _ _ hother, fsLookup_fsErase]
          simp [keepTestB, hl, hsb]
    · have hne : ¬ join_path DISK_CACHE_DIR c'.file_name =
          join_path DISK_CACHE_DIR c.file_name := by
        intro h
        exact hni (h ▸ List.mem_map_of_mem (fun x => join_path DISK_CACHE_DIR x.file_name) hmem)
      rcases hl : fsLookup fs (join_path DISK_CACHE_DIR c.file_name) with _ | df
      · rw [sweepRows_cons_missing c rest fs hl]
        exact ih fs hnt c' hmem
      · cases hsb : is_stale df.ageDays c.max_age_days
        · rw [sweepRows_cons_keep c rest fs df hl hsb]
          exact ih fs hnt c' hmem
        · rw [sweepRows_cons_stale c rest fs df hl hsb]
          rw [show ((((sweepRows rest (fsErase fs (join_path DISK_CACHE_DIR c.file_name))).1,
              (sweepRows rest (fsErase fs (join_path DISK_CACHE_DIR c.file_name))).2.1, true)) :
              List CacheEntry × FS × Bool).2.1 =
              (sweepRows rest (fsErase fs (join_path DISK_CACHE_DIR c.file_name))).2.1 from rfl]
          rw [ih (fsErase fs (join_path DISK_CACHE_DIR c.file_name)) hnt c' hmem]
          have hkeq : keepTestB (fsErase fs (join_path DISK_CACHE_DIR c.file_name)) c' =
              keepTestB fs c' := by
            simp [keepTestB, fsLookup_fsErase, hne]
          rw [hkeq, fsLookup_fsErase]
          simp [hne]

theorem mdLookup_mem (l : List (String × List CacheEntry)) (fn : String)
    (rows : List CacheEntry) (h : mdLookup l fn = some rows) : (fn, rows) ∈ l := by
  induction l with
  | nil => exact absurd h (by simp)
  | cons e rest ih =>
    obtain ⟨k, v⟩ := e
    rw [mdLookup_cons] at h
    by_cases hk : k = fn
    · rw [if_pos hk] at h
      injection h with h
      rw [hk, h]
      exact List.mem_cons_self _ _
    · rw [if_neg hk] at h
      exact List.mem_cons_of_mem _ (ih h)

theorem sweepFns_cons (g : String) (grows : List CacheEntry)
    (rest acc : List (String × List CacheEntry)) (fs : FS) :
    sweepFns ((g, grows) :: rest) acc fs =
      ((sweepFns rest (if (sweepRows grows fs).1.isEmpty then acc
          else mdSetRows acc g (sweepRows grows fs).1) (sweepRows grows fs).2.1).1,
        (sweepFns rest (if (sweepRows grows fs).1.isEmpty then acc
          else mdSetRows acc g (sweepRows grows fs).1) (sweepRows grows fs).2.1).2.1,
        (sweepRows grows fs).2.2 ||
          (sweepFns rest (if (sweepRows grows fs).1.isEmpty then acc
            else mdSetRows acc g (sweepRows grows fs).1) (sweepRows grows fs).2.1).2.2) :=
  rfl

theorem sweepFns_md_other (fn : String) :
    ∀ (l acc : List (String × List CacheEntry)) (fs : FS),
      ¬ fn ∈ l.map Prod.fst →
      mdLookup (sweepFns l acc fs).1 fn = mdLookup acc fn := by
  intro l
  induction l with
  | nil => intro acc fs _; rfl
  | cons e rest ih =>
    intro acc fs hfn
    obtain ⟨g, grows⟩ := e
    rw [List.map_cons] at hfn
    have hfn1 : ¬ g = fn := fun h => hfn (List.mem_cons.mpr (Or.inl h.symm))
    have hfn2 : ¬ fn ∈ rest.map Prod.fst := fun h => hfn (List.mem_cons.mpr (Or.inr h))
    rw [sweepFns_cons]
    dsimp only
    rw [ih _ _ hfn2]
    by_cases he : (sweepRows grows fs).1.isEmpty
    · rw [if_pos he]
    · rw [if_neg he, mdLookup_mdSetRows, if_neg hfn1]

theorem sweepFns_fs_other (p : String) :
    ∀ (l acc : List (String × List CacheEntry)) (fs : FS),
      (∀ e ∈ l, ∀ c ∈ e.2, ¬ p = join_path DISK_CACHE_DIR c.file_name) →
      fsLookup (sweepFns l acc fs).2.1 p = fsLookup fs p := by
  intro l
  induction l with
  | nil => intro acc fs _; rfl
  | cons e rest ih =>
    intro acc fs hp
    obtain ⟨g, grows⟩ := e
    rw [sweepFns_cons]
    dsimp only
    rw [ih _ _ (fun e he => hp e (List.mem_cons_of_mem _ he))]
    exact sweepRows_fs_other grows fs p (hp (g, grows) (List.mem_cons_self _ _))

theorem sweepRows_unchanged (rows : List CacheEntry) (fs : FS)
    (h : (sweepRows rows fs).2.2 = false) :
    (∀ c ∈ rows, keepTestB fs c = true) ∧ (sweepRows rows fs).2.1 = fs := by
  induction rows with
  | nil => exact ⟨fun c hc => absurd hc (List.not_mem_nil c), rfl⟩
  | cons c rest ih =>
    rcases hl : fsLookup fs (join_path DISK_CACHE_DIR c.file_name) with _ | df
    · rw [sweepRows_cons_missing c rest fs hl] at h
      exact absurd h (by simp)
    · cases hsb : is_stale df.ageDays c.max_age_days
      · rw [sweepRows_cons_keep c rest fs df hl hsb] at h ⊢
        obtain ⟨h1, h2⟩ := ih h
        refine ⟨?_, h2⟩
        intro c' hc'
        rcases List.mem_cons.mp hc' with rfl | hm
        · simp [keepTestB, hl, hsb]
        · exact h1 c' hm
      · rw [sweepRows_cons_stale c rest fs df hl hsb] at h
        exact absurd h (by simp)

theorem sweepFns_unchanged :
    ∀ (l acc : List (String × List CacheEntry)) (fs : FS),
      (sweepFns l acc fs).2.2 = false →
      (∀ e ∈ l, ∀ c ∈ e.2, keepTestB fs c = true) ∧ (sweepFns l acc fs).2.1 = fs := by
  intro l
  induction l with
  | nil =>
    intro acc fs _
    exact ⟨fun e he => absurd he (List.not_mem_nil e), rfl⟩
  | cons e rest ih =>
    intro acc fs h
    obtain ⟨g, grows⟩ := e
    rw [sweepFns_cons] at h ⊢
    dsimp only at h ⊢
    rw [Bool.or_eq_false_iff] at h
    obtain ⟨h1, h2⟩ := h
    obtain ⟨hk1, hfs1⟩ := sweepRows_unchanged grows fs h1
    rw [hfs1] at h2 ⊢
    obtain ⟨hk2, hfs2⟩ := ih _ fs h2
    refine ⟨?_, hfs2⟩
    intro e' he' c hc
    rcases List.mem_cons.mp he' with rfl | hm
    · exact hk1 c hc
    · exact hk2 e' hm c hc

theorem sweepFns_spec (fn : String) (rows : List CacheEntry) :
    ∀ (l acc : List (String × List CacheEntry)) (fs : FS),
      (l.map Prod.fst).Nodup →
      (∀ e ∈ l, (e.2.map fun c => join_path DISK_CACHE_DIR c.file_name).Nodup) →
      l.Pairwise (fun e1 e2 => ∀ c1 ∈ e1.2, ∀ c2 ∈ e2.2,
        ¬ join_path DISK_CACHE_DIR c1.file_name = join_path DISK_CACHE_DIR c2.file_name) →
      (fn, rows) ∈ l →
      (mdLookup (sweepFns l acc fs).1 fn =
        if (rows.filter (keepTestB fs)).isEmpty then mdLookup acc fn
        else some (rows.filter (keepTestB fs))) ∧
      (∀ c ∈ rows, fsLookup (sweepFns l acc fs).2.1 (join_path DISK_CACHE_DIR c.file_name) =
        if keepTestB fs c then fsLookup fs (join_path DISK_CACHE_DIR c.file_name)
        else Option.none) := by
  intro l
  induction l with
  | nil =>
    intro acc fs _ _ _ hmem
    exact absurd hmem (List.not_mem_nil _)
  | cons e rest ih =>
    intro acc fs hkeys hper hdisj hmem
    obtain ⟨g, grows⟩ := e
    rw [List.map_cons, List.nodup_cons] at hkeys
    obtain ⟨hg_notin, hkeys_t⟩ := hkeys
    rw [List.pairwise_cons] at hdisj
    obtain ⟨hd_head, hd_t⟩ := hdisj
    have hper_h := hper (g, grows) (List.mem_cons_self _ _)
    have hper_t : ∀ e ∈ rest, (e.2.map fun c => join_path DISK_CACHE_DIR c.file_name).Nodup :=
      fun e he => hper e (List.mem_cons_of_mem _ he)
    rw [sweepFns_cons]
    dsimp only
    rcases List.mem_cons.mp hmem with heq | hmem_t
    · -- the head entry is the one we are tracking
      injection heq with hg hrows
      subst hg
      subst hrows
      constructor
      · rw [sweepFns_md_other fn rest _ _ hg_notin]
        rw [sweepRows_keep rows fs hper_h]
        by_cases he : (rows.filter (keepTestB fs)).isEmpty
        · rw [if_pos he, if_pos he]
        · rw [if_neg he, if_neg he, mdLookup_mdSetRows, if_pos rfl]
      · intro c hc
        rw [sweepFns_fs_other _ rest _ _
          (fun e he c2 hc2 h => hd_head e he c hc c2 hc2 h)]
        exact sweepRows_fs_at rows fs hper_h c hc
    · -- the tracked entry lies further down
      have hfn_in : fn ∈ rest.map Prod.fst :=
        List.mem_map_of_mem Prod.fst hmem_t
      have hgfn : ¬ g = fn := fun h => hg_notin (h ▸ hfn_in)
      have hkeq : ∀ c ∈ rows, keepTestB (sweepRows grows fs).2.1 c = keepTestB fs c := by
        intro c hc
        have hother : ∀ q ∈ grows, ¬ join_path DISK_CACHE_DIR c.file_name =
            join_path DISK_CACHE_DIR q.file_name := by
          intro q hq h
          exact hd_head (fn, rows) hmem_t q hq c hc h.symm
        unfold keepTestB
        rw [sweepRows_fs_other grows fs _ hother]
      have hfseq : ∀ c ∈ rows,
          fsLookup (sweepRows grows fs).2.1 (join_path DISK_CACHE_DIR c.file_name) =
          fsLookup fs (join_path DISK_CACHE_DIR c.file_name) := by
        intro c hc
        have hother : ∀ q ∈ grows, ¬ join_path DISK_CACHE_DIR c.file_name =
            join_path DISK_CACHE_DIR q.file_name := by
          intro q hq h
          exact hd_head (fn, rows) hmem_t q hq c hc h.symm
        exact sweepRows_fs_other grows fs _ hother
      obtain ⟨ihmd, ihfs⟩ := ih _ (sweepRows grows fs).2.1 hkeys_t hper_t hd_t hmem_t
      have hfilter : rows.filter (keepTestB (sweepRows grows fs).2.1) =
          rows.filter (keepTestB fs) := List.filter_congr hkeq
      have hacc : mdLookup (if (sweepRows grows fs).1.isEmpty then acc
          else mdSetRows acc g (sweepRows grows fs).1) fn = mdLookup acc fn := by
        by_cases he : (sweepRows grows fs).1.isEmpty
        · rw [if_pos he]
        · rw [if_neg he, mdLookup_mdSetRows, if_neg hgfn]
      constructor
      · rw [ihmd, hfilter, hacc]
      · intro c hc
        rw [ihfs c hc, hkeq c hc, hfseq c hc]

/-- C4 (amended): after one run of `delete_old_disk_caches` — provided
distinct registry rows reference distinct artifact files — for every
function name with rows `rows`: if at least one row survives the keep test
(artifact exists and is within its TTL against the pre-sweep state), the
persisted registry holds exactly the surviving rows; if no row survives,
the function's original row list is left in the persisted registry
unchanged (the `if to_keep:` guard skips the update).  On disk, every
non-surviving row's artifact is gone afterwards (stale artifacts are
removed; missing ones stay missing) and every surviving row's artifact is
untouched.  The unconditional "every row whose artifact is missing or
stale has been dropped" of the original claim fails in the all-dropped
case, and with duplicate file references a kept row's artifact can even be
deleted by a later stale duplicate — see the counterexample. -/
theorem delete_old_disk_caches_spec (st : DiskState)
    (hkeys : (st.registryFile.entries.map Prod.fst).Nodup)
    (hper : ∀ e ∈ st.registryFile.entries,
      (e.2.map fun c => join_path DISK_CACHE_DIR c.file_name).Nodup)
    (hdisj : st.registryFile.entries.Pairwise (fun e1 e2 => ∀ c1 ∈ e1.2, ∀ c2 ∈ e2.2,
      ¬ join_path DISK_CACHE_DIR c1.file_name = join_path DISK_CACHE_DIR c2.file_name)) :
    ∀ fn rows, mdLookup st.registryFile.entries fn = some rows →
      (mdLookup (delete_old_disk_caches st).registryFile.entries fn =
        some (if (rows.filter (keepTestB st.fs)).isEmpty then rows
          else rows.filter (keepTestB st.fs))) ∧
      (∀ c ∈ rows, fsLookup (delete_old_disk_caches st).fs
          (join_path DISK_CACHE_DIR c.file_name) =
        if keepTestB st.fs c then fsLookup st.fs (join_path DISK_CACHE_DIR c.file_name)
        else Option.none) := by
  intro fn rows hmd
  have hmem := mdLookup_mem _ _ _ hmd
  obtain ⟨hsp_md, hsp_fs⟩ := sweepFns_spec fn rows st.registryFile.entries
    st.registryFile.entries st.fs hkeys hper hdisj hmem
  unfold delete_old_disk_caches
  dsimp only [load_cache_metadata_json]
  cases hch : (sweepFns st.registryFile.entries st.registryFile.entries st.fs).2.2
  · simp only [hch, Bool.false_eq_true, if_false, ite_false]
    obtain ⟨hall, hfs⟩ := sweepFns_unchanged _ _ _ hch
    have hkeepall : ∀ c ∈ rows, keepTestB st.fs c = true :=
      fun c hc => hall (fn, rows) hmem c hc
    have hfilter : rows.filter (keepTestB st.fs) = rows :=
      List.filter_eq_self.mpr hkeepall
    constructor
    · rw [hfilter, ite_self]
      exact hmd
    · intro c hc
      rw [hfs, hkeepall c hc, if_pos rfl]
  · simp only [hch, if_true, ite_true]
    constructor
    · by_cases he : (rows.filter (keepTestB st.fs)).isEmpty
      · rw [hsp_md, if_pos he, if_pos he, hmd]
      · rw [hsp_md, if_neg he, if_neg he]
    · exact hsp_fs

/-- Concrete scenario for the C4 counterexample: function `f` has two rows
sharing artifact file `x` (TTL 0 and a stale TTL 2 at age 3); function `g`
has one row whose artifact `y` does not exist. -/
def c4st : DiskState :=
  ⟨[(join_path DISK_CACHE_DIR "x", ⟨.pickled (.prim "1"), 3⟩)],
    ⟨[("f", [⟨"a1", "k1", "x", 0⟩, ⟨"a2", "k2", "x", 2⟩]),
      ("g", [⟨"a3", "k3", "y", 5⟩])], 0⟩⟩

/-- C4 counterexample: after one sweep of `c4st`, the row of `g` whose
artifact does not exist is still in the persisted registry (all of `g`'s
rows were dropped, so `if to_keep:` skipped the update), and the kept
unlimited-TTL row of `f` remains in the registry although its artifact `x`
was removed on behalf of the stale duplicate row — so rows referencing
missing artifacts do remain, falsifying the claim. -/
theorem delete_old_disk_caches_counterexample :
    mdLookup (delete_old_disk_caches c4st).registryFile.entries "g" =
      some [⟨"a3", "k3", "y", 5⟩] ∧
    fsLookup c4st.fs (join_path DISK_CACHE_DIR "y") = Option.none ∧
    mdLookup (delete_old_disk_caches c4st).registryFile.entries "f" =
      some [⟨"a1", "k1", "x", 0⟩] ∧
    fsLookup (delete_old_disk_caches c4st).fs (join_path DISK_CACHE_DIR "x") =
      Option.none := by
  decide

/-- Concrete scenario for the C4 witness: one function, one row, artifact
present and within TTL. -/
def c4wst : DiskState :=
  ⟨[("disk_cache/w4f.pkl", ⟨.pickled (.prim "5"), 1⟩)],
    ⟨[("w4", [⟨"a", "k", "w4f.pkl", 0⟩])], 1⟩⟩

/-- Witness for C4's amended theorem at the concrete `c4wst`. -/
theorem delete_old_disk_caches_spec_witness :
    mdLookup (delete_old_disk_caches c4wst).registryFile.entries "w4" =
      some (if (([⟨"a", "k", "w4f.pkl", 0⟩] : List CacheEntry).filter
          (keepTestB c4wst.fs)).isEmpty
        then [⟨"a", "k", "w4f.pkl", 0⟩]
        else ([⟨"a", "k", "w4f.pkl", 0⟩] : List CacheEntry).filter
          (keepTestB c4wst.fs)) :=
  (delete_old_disk_caches_spec c4wst (by decide) (by decide) (by decide) "w4"
    [⟨"a", "k", "w4f.pkl", 0⟩] (by decide)).1

end CacheToDisk
